import Mathlib

/-!
Shallow embedding of the VRPoker log parser (package `parser` of
AkatukiSora/vrc-vrpoker-stats) and of the statistics helpers that the
claims refer to.  Pure data structures mirror the Go structs; the Go
maps become functions with a `none` / zero default; the mutating
methods of `*Parser` become state-passing functions.  Timestamps are
modelled as natural numbers (the parser only copies them around).
Log lines are modelled at the tokenizer-output level: each accepted
line carries a timestamp and one `LogEvent` (one constructor per regex
of the source); card payloads stay raw strings so that `parseCards` /
`parseCard` run exactly as in the source.
-/

/-- A playing card, `Card` struct of the source: rank and suit strings.
An "empty" card has both fields `""`. -/
structure Card where
  rank : String
  suit : String
deriving DecidableEq, Repr

/-- `ActionType` enumeration of the source. -/
inductive ActionType where
  | blindSB
  | blindBB
  | check
  | call
  | bet
  | raise
  | allIn
  | fold
deriving DecidableEq, Repr

/-- `Street` enumeration of the source (ordered int constants in Go). -/
inductive Street where
  | preFlop
  | flop
  | turn
  | river
  | showdown
deriving DecidableEq, Repr

/-- Numeric value of a street, used for the `currentStreet < StreetFlop`
comparison of the Go int enum. -/
def Street.toNat : Street → Nat
  | .preFlop => 0
  | .flop => 1
  | .turn => 2
  | .river => 3
  | .showdown => 4

/-- `Position` enumeration of the source (`position.go` variant with HJ). -/
inductive Position where
  | unknown
  | sb
  | bb
  | utg
  | utg1
  | mp
  | hj
  | co
  | btn
deriving DecidableEq, Repr

/-- `PlayerAction` struct of the source. -/
structure PlayerAction where
  timestamp : Nat
  playerID : Int
  street : Street
  action : ActionType
  amount : Nat
deriving DecidableEq, Repr

/-- `PlayerHandInfo` struct of the source; Go zero values are the
defaults used by `ensurePlayer`. -/
structure PlayerHandInfo where
  seatID : Int
  actions : List PlayerAction := []
  holeCards : List Card := []
  position : Position := .unknown
  vpip : Bool := false
  pfr : Bool := false
  threeBet : Bool := false
  foldedPF : Bool := false
  foldTo3Bet : Bool := false
  showedDown : Bool := false
  won : Bool := false
  potWon : Nat := 0
deriving DecidableEq, Repr

/-- `Hand` struct of the source.  The Go `map[int]*PlayerHandInfo`
becomes a function into `Option`. -/
structure Hand where
  id : Nat
  startTime : Nat
  endTime : Nat
  localPlayerSeat : Int
  sbSeat : Int
  bbSeat : Int
  winnerSeat : Int
  winType : String
  totalPot : Nat
  communityCards : List Card
  activeSeats : List Int
  players : Int → Option PlayerHandInfo
  numPlayers : Nat
  isComplete : Bool

/-- A placeholder hand (used only as the default of list lookups in
observation helpers; never produced by the parser). -/
def dummyHand : Hand :=
  { id := 0, startTime := 0, endTime := 0, localPlayerSeat := -1,
    sbSeat := -1, bbSeat := -1, winnerSeat := -1, winType := "",
    totalPot := 0, communityCards := [], activeSeats := [],
    players := fun _ => none, numPlayers := 0, isComplete := false }

/-- `ParseResult` struct of the source. -/
structure ParseResult where
  localPlayerSeat : Int
  hands : List Hand
  inPokerWorld : Bool

/-- `pendingWin` struct of the source.  Seats come from `\d+` capture
groups, hence naturals. -/
structure pendingWin where
  seatID : Nat
  amount : Nat
deriving DecidableEq, Repr

/-- `pfAction` struct of the source. -/
structure pfAction where
  seatID : Int
  action : ActionType
  amount : Nat
deriving DecidableEq, Repr

/-! ## Card decoding (`parseCard` / `parseCards`) -/

/-- ASCII white-space characters stripped by Go's `strings.TrimSpace`
(the log payloads only ever contain ASCII). -/
def isSpaceChar (c : Char) : Bool :=
  c = ' ' ∨ c = '\t' ∨ c = '\n' ∨ c = '\r' ∨ c = '\x0b' ∨ c = '\x0c'

/-- `strings.TrimSpace` on a character list. -/
def trimChars (cs : List Char) : List Char :=
  ((cs.dropWhile isSpaceChar).reverse.dropWhile isSpaceChar).reverse

/-- `strings.Split(s, ",")`: split on every comma (empty parts kept). -/
def splitOnComma : List Char → List (List Char)
  | [] => [[]]
  | c :: rest =>
    if c = ',' then [] :: splitOnComma rest
    else
      match splitOnComma rest with
      | [] => [[c]]
      | part :: parts => (c :: part) :: parts

/-- The `validSuits` set of `parseCard`. -/
def validSuit (s : String) : Bool :=
  s = "h" ∨ s = "d" ∨ s = "c" ∨ s = "s"

/-- The `validRanks` set of `parseCard`. -/
def validRank (r : String) : Bool :=
  r = "2" ∨ r = "3" ∨ r = "4" ∨ r = "5" ∨ r = "6" ∨ r = "7" ∨ r = "8" ∨
  r = "9" ∨ r = "10" ∨ r = "J" ∨ r = "Q" ∨ r = "K" ∨ r = "A"

/-- `parseCard` of the source: trims, splits the final character off as
the suit, validates both parts.  Both failure branches of the source
`return Card{}, nil`: the error component is never used. -/
def parseCard (s : String) : Except String Card :=
  let t := trimChars s.data
  if t.length < 2 then .ok { rank := "", suit := "" }
  else
    let suit := String.mk [t.getLastD ' ']
    let rank := String.mk (t.dropLast)
    if validSuit suit ∧ validRank rank then .ok { rank := rank, suit := suit }
    else .ok { rank := "", suit := "" }

/-- `parseCards` of the source: split on commas, trim and parse each
token, propagating any error (there are none). -/
def parseCards (s : String) : Except String (List Card) :=
  let rec go : List (List Char) → Except String (List Card)
    | [] => .ok []
    | part :: parts =>
      match parseCard (String.mk part) with
      | .error e => .error e
      | .ok c =>
        match go parts with
        | .error e => .error e
        | .ok cs => .ok (c :: cs)
  go (splitOnComma s.data)

example : parseCard "7d" = .ok { rank := "7", suit := "d" } := by rfl
example : parseCard " 10h " = .ok { rank := "10", suit := "h" } := by rfl
example : parseCard "xx" = .ok { rank := "", suit := "" } := by rfl
example : parseCards "7d, 9c" = .ok [{ rank := "7", suit := "d" }, { rank := "9", suit := "c" }] := by rfl
example : parseCards "7d, xx" = .ok [{ rank := "7", suit := "d" }, { rank := "", suit := "" }] := by rfl

/-! ## Parser state -/

/-- `Parser` struct of the source.  Go maps with a zero read default
(`streetBets`, `foldedThisHand`) become total functions. -/
structure Parser where
  result : ParseResult
  currentHand : Option Hand
  handIDCounter : Nat
  inPokerWorld : Bool
  currentStreet : Street
  streetBetAmount : Nat
  foldedThisHand : Int → Bool
  pendingWinners : List pendingWin
  lastTimestamp : Nat
  streetBets : Int → Nat
  pfActions : List pfAction
  pendingLocalCards : Option (List Card)
  lastBlindSeat : Int

/-- `NewParser` of the source. -/
def NewParser : Parser :=
  { result := { localPlayerSeat := -1, hands := [], inPokerWorld := false },
    currentHand := none, handIDCounter := 0, inPokerWorld := false,
    currentStreet := .preFlop, streetBetAmount := 0,
    foldedThisHand := fun _ => false, pendingWinners := [],
    lastTimestamp := 0, streetBets := fun _ => 0, pfActions := [],
    pendingLocalCards := none, lastBlindSeat := -1 }

/-- Tokenizer output: one constructor per log-line regex of the source.
Seats and amounts come from `\d+` capture groups (naturals); card
payloads stay raw strings and are decoded by `parseCards`/`parseCard`
inside the handlers, exactly as in the source.  `worldJoin` carries the
result of the `worldID == VRPokerWorldID` comparison. -/
inductive LogEvent where
  | worldJoin (isVRPoker : Bool)
  | worldLeave
  | newGame
  | drawLocalHole (cards : String)
  | sbBet (seat amount : Nat)
  | bbBet (seat amount : Nat)
  | community (card : String)
  | streetBoundary
  | folded (seat : Nat)
  | endTurn (seat amount : Nat)
  | showHole (seat : Nat) (cards : String)
  | foldToOne
  | potWinner (seat amount : Nat)
  | potManager (seat amount : Nat)

/-- A tokenized log line: timestamp plus event. -/
structure TimedEvent where
  ts : Nat
  ev : LogEvent

/-! ## Hand-level helpers -/

/-- Update the entry at one seat of a players map (no-op when absent),
modelling mutation through the Go `*PlayerHandInfo` pointer. -/
def updatePlayer (h : Hand) (s : Int) (f : PlayerHandInfo → PlayerHandInfo) : Hand :=
  { h with players := fun s' => if s' = s then (h.players s').map f else h.players s' }

/-- `ensurePlayer` of the source, restricted to the hand it mutates:
create the seat's entry if missing and record the seat in
`ActiveSeats` (once). -/
def ensurePlayerH (h : Hand) (s : Int) : Hand :=
  match h.players s with
  | some _ => h
  | none =>
    { h with
      players := fun s' => if s' = s then some { seatID := s } else h.players s',
      activeSeats := if s ∈ h.activeSeats then h.activeSeats else h.activeSeats ++ [s] }

/-- Append one action to a seat's action list (seat must already exist,
as after `ensurePlayer` in the source). -/
def appendActionH (h : Hand) (s : Int) (a : PlayerAction) : Hand :=
  updatePlayer h s (fun pi => { pi with actions := pi.actions ++ [a] })

/-- `cardsMatch` of the source: index-wise equality of the two slices
(its Go doc comment says "order-insensitive", but the loop compares
position by position). -/
def cardsMatch (a b : List Card) : Bool :=
  a.length = b.length ∧ (a.zip b).all (fun p => p.1.rank = p.2.rank ∧ p.1.suit = p.2.suit)

/-- `classifyAction` of the source.  The `amount = 0` branch of the
source returns `check` on both of its sub-branches. -/
def classifyAction (p : Parser) (seat : Int) (amount : Nat) : ActionType :=
  let _prevCommitted := p.streetBets seat
  if amount = 0 then .check
  else if p.streetBetAmount = 0 then .bet
  else if p.streetBetAmount < amount then .raise
  else .call

/-- `assignLocalCards` of the source: give the seat the cards, mark the
seat as local (hand and sticky result), clear the pending buffer.
(The source dereferences `p.currentHand`; it is only called with a
hand in progress, so the `none` case returns `p` unchanged.) -/
def assignLocalCards (p : Parser) (seat : Int) (cards : List Card) : Parser :=
  match p.currentHand with
  | none => p
  | some h =>
    let h := ensurePlayerH h seat
    let h := updatePlayer h seat (fun pi => { pi with holeCards := cards })
    let h := { h with localPlayerSeat := seat }
    { p with currentHand := some h,
             result := { p.result with localPlayerSeat := seat },
             pendingLocalCards := none }

/-! ## Position assignment (`position.go`) -/

/-- `sortInts` of the source (insertion sort by `<`); modelled with the
standard insertion sort on the same order. -/
def sortInts (s : List Int) : List Int :=
  s.foldr (fun x acc => acc.orderedInsert (· ≤ ·) x) []

/-- `positionOrder` of the source (`position.go` version). -/
def positionOrder (n : Nat) : List Position :=
  match n with
  | 2 => [.sb, .btn]
  | 3 => [.sb, .bb, .btn]
  | 4 => [.sb, .bb, .utg, .btn]
  | 5 => [.sb, .bb, .utg, .mp, .btn]
  | 6 => [.sb, .bb, .utg, .hj, .co, .btn]
  | 7 => [.sb, .bb, .utg, .utg1, .hj, .co, .btn]
  | 8 => [.sb, .bb, .utg, .utg1, .mp, .hj, .co, .btn]
  | _ =>
    (List.range n).map (fun i =>
      if i = 0 then .sb
      else if i = 1 ∧ 1 < n then .bb
      else if i = n - 1 ∧ 2 < n then .btn
      else if i = n - 2 ∧ 3 < n then .co
      else if i = n - 3 ∧ 4 < n then .mp
      else .unknown)

/-- `assignPositions` of the source (`position.go` version): rotate the
sorted active seats so SB is first and hand out `positionOrder`. -/
def assignPositions (h : Hand) : Hand :=
  if h.sbSeat < 0 ∨ h.bbSeat < 0 then h
  else
    let allSeats := sortInts h.activeSeats
    match allSeats.findIdx? (· = h.sbSeat) with
    | none => h
    | some sbIdx =>
      let rotated := allSeats.drop sbIdx ++ allSeats.take sbIdx
      let positions := positionOrder rotated.length
      (rotated.enum).foldl
        (fun h' si =>
          if si.1 < positions.length then
            updatePlayer h' si.2 (fun pi => { pi with position := positions.getD si.1 .unknown })
          else h')
        h

/-! ## Pre-flop aggression pass (`calculatePreflopStats`, current version) -/

/-- `bbAmount` of the source: the amount of the BB seat's first
`ActionBlindBB` action, else 0. -/
def bbAmountOf (players : Int → Option PlayerHandInfo) (bbSeat : Int) : Nat :=
  if 0 ≤ bbSeat then
    match players bbSeat with
    | some pi =>
      match pi.actions.find? (fun a => a.action = .blindBB) with
      | some a => a.amount
      | none => 0
    | none => 0
  else 0

/-- Loop state of `calculatePreflopStats`: the bet level, the
`raiserAtLevel` map and the players map being mutated. -/
structure PFState where
  betLevel : Nat
  raiserAt : Nat → Option Int
  players : Int → Option PlayerHandInfo

/-- Update one seat of the pass's players map (no-op when absent). -/
def pfModify (st : PFState) (s : Int) (f : PlayerHandInfo → PlayerHandInfo) : PFState :=
  { st with players := fun s' => if s' = s then (st.players s').map f else st.players s' }

/-- One iteration of the `calculatePreflopStats` loop (current version
of the source, the one with `raiserAtLevel`).  A seat absent from the
players map is skipped (`continue`).  Note the source's `switch` has no
case for `ActionAllIn`, which therefore does nothing. -/
def pfStep (sbSeat bbSeat : Int) (st : PFState) (act : pfAction) : PFState :=
  match st.players act.seatID with
  | none => st
  | some _ =>
    let isSB := act.seatID = sbSeat
    let isBB := act.seatID = bbSeat
    match act.action with
    | .blindSB => { st with betLevel := 1 }
    | .blindBB => if st.betLevel < 2 then { st with betLevel := 2 } else st
    | .raise | .bet =>
      let lvl := st.betLevel + 1
      let st := { st with betLevel := lvl,
                          raiserAt := fun l => if l = lvl then some act.seatID else st.raiserAt l }
      if lvl = 2 then pfModify st act.seatID (fun pi => { pi with pfr := true, vpip := true })
      else if lvl = 3 then pfModify st act.seatID (fun pi => { pi with threeBet := true, vpip := true })
      else pfModify st act.seatID (fun pi => { pi with vpip := true })
    | .call =>
      if isSB ∧ act.amount ≤ bbAmountOf st.players bbSeat then
        -- SB completing the BB is not VPIP unless a raise came before
        if 2 < st.betLevel then pfModify st act.seatID (fun pi => { pi with vpip := true })
        else st
      else if isBB ∧ st.betLevel ≤ 2 then st
      else pfModify st act.seatID (fun pi => { pi with vpip := true })
    | .check => st
    | .fold =>
      if 3 ≤ st.betLevel then
        match st.raiserAt (st.betLevel - 1) with
        | some raiserSeat =>
          if raiserSeat = act.seatID then
            pfModify st act.seatID (fun pi => { pi with foldTo3Bet := true })
          else st
        | none => st
      else st
    | .allIn => st

/-- `calculatePreflopStats` of the source (current version): fold the
pre-flop action buffer over `pfStep`.  Go's `hasBlinds` conditional
initializes `betLevel` to 1 on both branches. -/
def calculatePreflopStats (pf : List pfAction) (h : Hand) : Hand :=
  if pf.isEmpty then h
  else
    let hasBlinds := 0 ≤ h.sbSeat ∨ 0 ≤ h.bbSeat
    let betLevel0 : Nat := if hasBlinds then 1 else 1
    let fin := pf.foldl (pfStep h.sbSeat h.bbSeat)
      { betLevel := betLevel0, raiserAt := fun _ => none, players := h.players }
    { h with players := fin.players }

/-! ## Blind inference (`inferBlindsFromPreflop`) -/

/-- The seat of the first non-blind pre-flop action (−1 when there is
none), mirroring the `firstSeat` loop of `inferBlindsFromPreflop`. -/
def firstVoluntarySeat : List pfAction → Int
  | [] => -1
  | a :: rest =>
    match a.action with
    | .blindSB | .blindBB => firstVoluntarySeat rest
    | _ => a.seatID

/-- `inferBlindsFromPreflop` of the source.  Rotation indices are
computed in ℕ: Go's `(i-1+n)%n` and `(i-2+n)%n` are written
`(i+n-1)%n` and `(i+n-2)%n`, equal on integers for `i ≥ 0, n ≥ 2`. -/
def inferBlindsFromPreflop (pf : List pfAction) (h : Hand) : Bool × Hand :=
  if 0 ≤ h.sbSeat ∧ 0 ≤ h.bbSeat then (false, h)
  else
    let seats := sortInts h.activeSeats
    let n := seats.length
    if n < 2 then (false, h)
    else
      match (if 0 ≤ h.sbSeat ∧ h.bbSeat < 0 then seats.findIdx? (· = h.sbSeat) else none) with
      | some sbIdx => (true, { h with bbSeat := seats.getD ((sbIdx + 1) % n) (-1) })
      | none =>
        match (if 0 ≤ h.bbSeat ∧ h.sbSeat < 0 then seats.findIdx? (· = h.bbSeat) else none) with
        | some bbIdx => (true, { h with sbSeat := seats.getD ((bbIdx + n - 1) % n) (-1) })
        | none =>
          let firstSeat := firstVoluntarySeat pf
          if firstSeat < 0 then (false, h)
          else
            match seats.findIdx? (· = firstSeat) with
            | none => (false, h)
            | some idx =>
              let bbIdx := (idx + n - 1) % n
              let sbIdx := (idx + n - 2) % n
              (true, { h with bbSeat := seats.getD bbIdx (-1), sbSeat := seats.getD sbIdx (-1) })

/-! ## Finalization -/

/-- Body of the pending-winner loop of `finalizeCurrentHand`: ensure
the seat, mark it won, add to its pot, make it the winner seat. -/
def applyWinner (h : Hand) (w : pendingWin) : Hand :=
  let h := ensurePlayerH h (w.seatID : Int)
  let h := updatePlayer h (w.seatID : Int)
    (fun pi => { pi with won := true, potWon := pi.potWon + w.amount })
  { h with winnerSeat := (w.seatID : Int) }

/-- The pending-winner loop. -/
def applyWinners (h : Hand) (ws : List pendingWin) : Hand :=
  ws.foldl applyWinner h

/-- Finalize step "assign still-pending local cards to the sticky local
seat" of `finalizeCurrentHand` (via `assignLocalCards`, whose effect on
the hand is ensure + hole cards + local seat). -/
def pendingAssign (p : Parser) (h0 : Hand) : Hand :=
  match p.pendingLocalCards with
  | some cards =>
    if 0 ≤ p.result.localPlayerSeat then
      let h := ensurePlayerH h0 p.result.localPlayerSeat
      let h := updatePlayer h p.result.localPlayerSeat (fun pi => { pi with holeCards := cards })
      { h with localPlayerSeat := p.result.localPlayerSeat }
    else h0
  | none => h0

/-- Finalize step `h.TotalPot = totalPot` (the loop accumulates exactly
the sum of the pending amounts). -/
def setTotalPot (p : Parser) (h : Hand) : Hand :=
  { h with totalPot := (p.pendingWinners.map pendingWin.amount).sum }

/-- Finalize step "infer win type when unset". -/
def inferWinType (h : Hand) : Hand :=
  if h.winType = "" then
    { h with winType := if 3 ≤ h.communityCards.length then "showdown" else "fold" }
  else h

/-- Finalize step `h.NumPlayers = len(h.ActiveSeats)`. -/
def setNumPlayers (h : Hand) : Hand :=
  { h with numPlayers := h.activeSeats.length }

/-- Finalize step `h.EndTime = p.lastTimestamp`. -/
def setEndTime (p : Parser) (h : Hand) : Hand :=
  { h with endTime := p.lastTimestamp }

/-- Finalize step `h.IsComplete = ...`. -/
def setComplete (p : Parser) (h : Hand) : Hand :=
  { h with isComplete := !p.pendingWinners.isEmpty || !h.communityCards.isEmpty }

/-- The hand-completion computation of `finalizeCurrentHand` (the part
that turns the current hand into its finalized value), one named stage
per statement of the source: pending local cards, winners, total pot,
win type, player count, positions, pre-flop stats, end time,
completeness. -/
def finalizeHand (p : Parser) (h0 : Hand) : Hand :=
  setComplete p (setEndTime p (calculatePreflopStats p.pfActions (assignPositions
    (setNumPlayers (inferWinType (setTotalPot p
      (applyWinners (pendingAssign p h0) p.pendingWinners)))))))

/-- `finalizeCurrentHand` of the source: finalize the current hand and
keep it iff the local player participated.  (The source's re-run of
`assignLocalCards` writes `result.LocalPlayerSeat` back to its own
value, so only `hands`, `currentHand` and `pendingLocalCards`
change.) -/
def finalizeCurrentHand (p : Parser) : Parser :=
  match p.currentHand with
  | none => p
  | some h0 =>
    let h := finalizeHand p h0
    let hands :=
      if 0 ≤ h.localPlayerSeat then
        match h.players h.localPlayerSeat with
        | some _ => p.result.hands ++ [h]
        | none => p.result.hands
      else p.result.hands
    { p with result := { p.result with hands := hands },
             currentHand := none, pendingLocalCards := none }

/-- `startNewHand` of the source. -/
def startNewHand (p : Parser) (ts : Nat) : Parser :=
  let id := p.handIDCounter + 1
  { p with
    handIDCounter := id,
    currentHand := some
      { id := id, startTime := ts, endTime := 0,
        localPlayerSeat := p.result.localPlayerSeat,
        sbSeat := -1, bbSeat := -1, winnerSeat := -1, winType := "",
        totalPot := 0, communityCards := [], activeSeats := [],
        players := fun _ => none, numPlayers := 0, isComplete := false },
    currentStreet := .preFlop,
    streetBets := fun _ => 0,
    streetBetAmount := 0,
    pfActions := [],
    foldedThisHand := fun _ => false,
    pendingWinners := [],
    pendingLocalCards := none,
    lastBlindSeat := -1 }

/-! ## Event processing (`processPokerEvent` / `ParseLine`) -/

/-- The `=== SB blind ===` handler of `processPokerEvent`. -/
def handleSBBet (p : Parser) (h : Hand) (ts seat amount : Nat) : Parser :=
  let h := { h with sbSeat := (seat : Int) }
  let h := ensurePlayerH h (seat : Int)
  let h := appendActionH h (seat : Int)
    { timestamp := ts, playerID := (seat : Int), street := .preFlop,
      action := .blindSB, amount := amount }
  { p with currentHand := some h,
           streetBets := fun s' => if s' = (seat : Int) then amount else p.streetBets s',
           streetBetAmount := if p.streetBetAmount < amount then amount else p.streetBetAmount,
           pfActions := p.pfActions ++ [{ seatID := (seat : Int), action := .blindSB, amount := amount }],
           lastBlindSeat := (seat : Int) }

/-- The `=== BB blind ===` handler of `processPokerEvent`. -/
def handleBBBet (p : Parser) (h : Hand) (ts seat amount : Nat) : Parser :=
  let h := { h with bbSeat := (seat : Int) }
  let h := ensurePlayerH h (seat : Int)
  let h := appendActionH h (seat : Int)
    { timestamp := ts, playerID := (seat : Int), street := .preFlop,
      action := .blindBB, amount := amount }
  { p with currentHand := some h,
           streetBets := fun s' => if s' = (seat : Int) then amount else p.streetBets s',
           streetBetAmount := if p.streetBetAmount < amount then amount else p.streetBetAmount,
           pfActions := p.pfActions ++ [{ seatID := (seat : Int), action := .blindBB, amount := amount }],
           lastBlindSeat := (seat : Int) }

/-- The `=== Community card ===` handler of `processPokerEvent`. -/
def handleCommunity (p : Parser) (h : Hand) (card : String) : Parser :=
  match parseCard card with
  | .error _ => p
  | .ok c =>
    let cc := h.communityCards ++ [c]
    let street :=
      match cc.length with
      | 1 | 2 | 3 => if p.currentStreet.toNat < Street.flop.toNat then .flop else p.currentStreet
      | 4 => .turn
      | 5 => .river
      | _ => p.currentStreet
    { p with currentHand := some { h with communityCards := cc }, currentStreet := street }

/-- The `=== Player folded ===` handler of `processPokerEvent`. -/
def handleFolded (p : Parser) (h : Hand) (ts seat : Nat) : Parser :=
  let folded := fun s' => if s' = (seat : Int) then true else p.foldedThisHand s'
  let h := ensurePlayerH h (seat : Int)
  let h := appendActionH h (seat : Int)
    { timestamp := ts, playerID := (seat : Int), street := p.currentStreet,
      action := .fold, amount := 0 }
  if p.currentStreet = .preFlop then
    let h := updatePlayer h (seat : Int) (fun pi => { pi with foldedPF := true })
    { p with currentHand := some h, foldedThisHand := folded,
             pfActions := p.pfActions ++ [{ seatID := (seat : Int), action := .fold, amount := 0 }] }
  else
    { p with currentHand := some h, foldedThisHand := folded }

/-- The `=== Player end turn ===` handler of `processPokerEvent`:
ignore seats that already folded, otherwise classify and record the
action and update the street-bet state. -/
def handleEndTurn (p : Parser) (h : Hand) (ts seat amount : Nat) : Parser :=
  if p.foldedThisHand (seat : Int) then p
  else
    let h := ensurePlayerH h (seat : Int)
    let action := classifyAction p (seat : Int) amount
    let h := appendActionH h (seat : Int)
      { timestamp := ts, playerID := (seat : Int), street := p.currentStreet,
        action := action, amount := amount }
    let p' :=
      { p with currentHand := some h,
               streetBetAmount := if p.streetBetAmount < amount then amount else p.streetBetAmount,
               streetBets := fun s' => if s' = (seat : Int) then amount else p.streetBets s' }
    if p.currentStreet = .preFlop then
      { p' with pfActions := p.pfActions ++ [{ seatID := (seat : Int), action := action, amount := amount }] }
    else p'

/-- The `=== Show hole cards ===` handler of `processPokerEvent`. -/
def handleShowHole (p : Parser) (h : Hand) (seat : Nat) (cards : String) : Parser :=
  match parseCards cards with
  | .error _ => p
  | .ok cs =>
    let h := ensurePlayerH h (seat : Int)
    let h := updatePlayer h (seat : Int) (fun pi => { pi with showedDown := true })
    let p := { p with currentHand := some h, currentStreet := .showdown }
    match p.pendingLocalCards with
    | some pending =>
      if cardsMatch pending cs then
        let p :=
          if p.result.localPlayerSeat < 0 then
            { p with result := { p.result with localPlayerSeat := (seat : Int) } }
          else p
        assignLocalCards p (seat : Int) cs
      else
        { p with currentHand := some (updatePlayer h (seat : Int)
            (fun pi => if pi.holeCards.isEmpty then { pi with holeCards := cs } else pi)) }
    | none =>
      { p with currentHand := some (updatePlayer h (seat : Int)
          (fun pi => if pi.holeCards.isEmpty then { pi with holeCards := cs } else pi)) }

/-- The `=== Draw local hole cards ===` handler of
`processPokerEvent`. -/
def handleDrawLocal (p : Parser) (cards : String) : Parser :=
  match parseCards cards with
  | .error _ => p
  | .ok cs =>
    let p := { p with pendingLocalCards := some cs }
    if 0 ≤ p.result.localPlayerSeat then assignLocalCards p p.result.localPlayerSeat cs
    else if 0 ≤ p.lastBlindSeat then assignLocalCards p p.lastBlindSeat cs
    else p

/-- `processPokerEvent` of the source (its dispatch over the non-world
patterns).  `newGame` is handled before the `currentHand == nil` guard;
all other events are dropped when no hand is in progress. -/
def processPokerEvent (p : Parser) (ts : Nat) (e : LogEvent) : Parser :=
  match e with
  | .newGame => startNewHand (finalizeCurrentHand p) ts
  | _ =>
    match p.currentHand with
    | none => p
    | some h =>
      match e with
      | .drawLocalHole cards => handleDrawLocal p cards
      | .sbBet seat amount => handleSBBet p h ts seat amount
      | .bbBet seat amount => handleBBBet p h ts seat amount
      | .community card => handleCommunity p h card
      | .streetBoundary => { p with streetBets := fun _ => 0, streetBetAmount := 0 }
      | .folded seat => handleFolded p h ts seat
      | .endTurn seat amount => handleEndTurn p h ts seat amount
      | .showHole seat cards => handleShowHole p h seat cards
      | .foldToOne => { p with currentStreet := .showdown }
      | .potWinner seat amount =>
        { p with pendingWinners := p.pendingWinners ++ [{ seatID := seat, amount := amount }],
                 currentHand := some (if h.winType = "" then { h with winType := "showdown" } else h) }
      | .potManager seat amount =>
        { p with pendingWinners := p.pendingWinners ++ [{ seatID := seat, amount := amount }],
                 currentHand := some { h with winType := "fold" } }
      | _ => p

/-- `ParseLine` of the source, at tokenizer-output level: record the
timestamp, handle world enter/leave, otherwise dispatch to
`processPokerEvent`. -/
def ParseLine (p : Parser) (tev : TimedEvent) : Parser :=
  let p := { p with lastTimestamp := tev.ts }
  match tev.ev with
  | .worldJoin isVRPoker =>
    { p with inPokerWorld := isVRPoker,
             result := { p.result with inPokerWorld := isVRPoker } }
  | .worldLeave =>
    let p := if p.inPokerWorld then finalizeCurrentHand p else p
    { p with inPokerWorld := false,
             result := { p.result with inPokerWorld := false } }
  | e => processPokerEvent p tev.ts e

/-- `ParseReader` of the source: fresh parser, ingest every line, final
finalize, return the result. -/
def ParseReader (lines : List TimedEvent) : ParseResult :=
  (finalizeCurrentHand (lines.foldl ParseLine NewParser)).result

/-! ## Opportunity analyzer (`opportunities.go`) -/

/-- `isAggressivePreflop` of `opportunities.go`. -/
def isAggressivePreflop (a : ActionType) : Bool :=
  a = .bet ∨ a = .raise ∨ a = .allIn

/-! ## Spec-modelled finalize with blind inference -/

/-- Modelled from the spec: §4.3.6 step 3 runs blind inference
(`inferBlindsFromPreflop`) between the player count and the position
assignment.  The call site is not under `src/` (the `finalizeCurrentHand`
of `src/unnamed/part_001` predates `inferBlindsFromPreflop` of
`src/unnamed/part_002`); everything except the inserted call follows
`finalizeHand` above. -/
def finalizeHandInferring (p : Parser) (h0 : Hand) : Hand :=
  setComplete p (setEndTime p (calculatePreflopStats p.pfActions (assignPositions
    (inferBlindsFromPreflop p.pfActions (setNumPlayers (inferWinType (setTotalPot p
      (applyWinners (pendingAssign p h0) p.pendingWinners))))).2)))

/-! ## Observation helpers (used to state concrete-run theorems) -/

/-- Hand at an index of a parse result. -/
def handAt (r : ParseResult) (i : Nat) : Hand :=
  r.hands.getD i dummyHand

/-- A seat's record in a hand, as data (Go zero value when absent). -/
def playerAt (h : Hand) (s : Int) : PlayerHandInfo :=
  (h.players s).getD { seatID := s }

/-- Whether a seat has an entry in a hand. -/
def hasPlayer (h : Hand) (s : Int) : Bool :=
  (h.players s).isSome

/-- A seat's recorded actions in a hand. -/
def actionsOf (h : Hand) (s : Int) : List PlayerAction :=
  (playerAt h s).actions

/-- A seat's accumulated winnings in a hand (0 when absent). -/
def potWonAt (h : Hand) (s : Int) : Nat :=
  match h.players s with
  | some pi => pi.potWon
  | none => 0

/-- A seat's `won` flag in a hand (false when absent). -/
def wonAt (h : Hand) (s : Int) : Bool :=
  match h.players s with
  | some pi => pi.won
  | none => false

/-! ## Claim C4 — card-list decoding never fails -/

/-- `parseCard` succeeds on every input (both "failure" branches of the
source return `Card{}, nil`). -/
theorem parseCard_ok (s : String) : ∃ c, parseCard s = Except.ok c := by
  unfold parseCard
  dsimp only
  split
  · exact ⟨_, rfl⟩
  · split
    · exact ⟨_, rfl⟩
    · exact ⟨_, rfl⟩

/-- `parseCards.go` succeeds on every part list. -/
theorem parseCards_go_ok (parts : List (List Char)) : ∃ cs, parseCards.go parts = Except.ok cs := by
  induction parts with
  | nil => exact ⟨[], rfl⟩
  | cons part rest ih =>
    obtain ⟨c, hc⟩ := parseCard_ok (String.mk part)
    obtain ⟨cs, hcs⟩ := ih
    exact ⟨c :: cs, by simp [parseCards.go, hc, hcs]⟩

/-- C4 counterexample: decoding the list `"7d, xx"`, whose second token
is invalid, does **not** yield a decoding failure; it succeeds with an
empty card in the invalid position. -/
theorem C4_list_failure_counterexample :
    (parseCards "7d, xx").isOk = true ∧
    parseCards "7d, xx" = Except.ok [{ rank := "7", suit := "d" }, { rank := "", suit := "" }] :=
  ⟨rfl, rfl⟩

/-- C4 (amended): decoding a comma-separated card list never fails —
invalid tokens decode to empty cards instead of raising an error, so
the caller's "ignore this line" error path is dead; and decoding a
single invalid token (too short, bad suit, or bad rank) yields the
empty card rather than a failure. -/
theorem C4_parseCards_never_fails :
    (∀ s : String, ∃ cs, parseCards s = Except.ok cs) ∧
    (∀ s : String,
      ((trimChars s.data).length < 2 ∨
       validSuit (String.mk [(trimChars s.data).getLastD ' ']) = false ∨
       validRank (String.mk (trimChars s.data).dropLast) = false) →
      parseCard s = Except.ok { rank := "", suit := "" }) := by
  constructor
  · intro s
    exact parseCards_go_ok (splitOnComma s.data)
  · intro s hbad
    unfold parseCard
    dsimp only
    split
    · rfl
    · rename_i hlen
      rcases hbad with hbad | hbad | hbad
      · exact absurd hbad hlen
      · rw [if_neg]
        rintro ⟨h1, -⟩
        rw [hbad] at h1
        exact Bool.false_ne_true h1
      · rw [if_neg]
        rintro ⟨-, h2⟩
        rw [hbad] at h2
        exact Bool.false_ne_true h2

/-- Witness for C4: the invalid token `"xx"` (bad rank `"x"`). -/
theorem C4_parseCards_never_fails_witness :
    validRank (String.mk (trimChars "xx".data).dropLast) = false ∧
    parseCard "xx" = Except.ok { rank := "", suit := "" } :=
  ⟨by decide, C4_parseCards_never_fails.2 "xx" (Or.inr (Or.inr (by decide)))⟩

/-! ## Claim C9 — replay determinism -/

/-- C9: parsing the same tokenized line stream with a fresh parser each
time yields the same finalized-hand sequence; the parse is a pure
function of the input. -/
theorem C9_replay_idempotent (lines : List TimedEvent) :
    ParseReader lines = ParseReader lines ∧
    (finalizeCurrentHand (lines.foldl ParseLine NewParser)).result.hands =
      (ParseReader lines).hands :=
  ⟨rfl, rfl⟩

/-! ## Claim C5 — local-seat reveal matching -/

/-- Scenario S4 of the spec: SB posted by seat 2, then the local hole
cards `7d, 9c`, then seat 8 reveals `7d, 9c`. -/
def s4Events : List TimedEvent :=
  [⟨1, .newGame⟩, ⟨2, .sbBet 2 10⟩, ⟨3, .drawLocalHole "7d, 9c"⟩, ⟨4, .showHole 8 "7d, 9c"⟩]

/-- The same pending cards revealed in the opposite order while still
pending (no blind was posted, so no tentative assignment happened). -/
def c5ReversedEvents : List TimedEvent :=
  [⟨1, .newGame⟩, ⟨2, .drawLocalHole "7d, 9c"⟩, ⟨3, .showHole 8 "9c, 7d"⟩]

/-- C5 (code bug): (a) `cardsMatch` is order-sensitive although its doc
comment says order-insensitive, so a reveal of the pending pair in the
opposite order is not recognized and the local seat stays unknown;
(b) in scenario S4 the tentative assignment to seat 2 clears the
pending buffer, so seat 8's matching reveal never reassigns the local
seat: it ends at 2, not 8 as the spec requires. -/
theorem C5_reveal_reassignment_bug :
    cardsMatch [{ rank := "7", suit := "d" }, { rank := "9", suit := "c" }]
      [{ rank := "9", suit := "c" }, { rank := "7", suit := "d" }] = false ∧
    (ParseReader c5ReversedEvents).localPlayerSeat = -1 ∧
    (ParseReader s4Events).localPlayerSeat = 2 ∧
    (handAt (ParseReader s4Events) 0).localPlayerSeat = 2 ∧
    (playerAt (handAt (ParseReader s4Events) 0) 8).holeCards =
      [{ rank := "7", suit := "d" }, { rank := "9", suit := "c" }] := by
  refine ⟨rfl, by decide, by decide, by decide, by decide⟩

/-! ## Claim C6 — fold-to-3-bet vs PFR -/

/-- Scenario S2 of the spec: blinds posted by seats 2 and 3, seat 4
makes the first raise, seat 5 re-raises, seat 4 folds.  (The
`drawLocalHole` line only makes the hand count as the local player's
so that it is kept.) -/
def c6Events : List TimedEvent :=
  [⟨1, .newGame⟩, ⟨2, .sbBet 2 10⟩, ⟨3, .bbBet 3 20⟩, ⟨4, .drawLocalHole "Ah, Kd"⟩,
   ⟨5, .endTurn 4 60⟩, ⟨6, .endTurn 5 180⟩, ⟨7, .folded 4⟩]

/-- C6 (code bug): on scenario S2 the pre-flop pass marks the *first*
raiser (seat 4) as a three-bettor (the posted BB already lifted the
bet level to 2, so its raise lands on level 3), leaves its PFR flag
unset, and still sets its fold-to-3-bet flag when it folds — so
`fold_to_3_bet ⇒ PFR` fails, contrary to the pass's own doc comment
("First raise/bet = 2bet (PFR)"). -/
theorem C6_fold_to_3bet_without_pfr :
    (ParseReader c6Events).hands.length = 1 ∧
    (playerAt (handAt (ParseReader c6Events) 0) 4).foldTo3Bet = true ∧
    (playerAt (handAt (ParseReader c6Events) 0) 4).pfr = false ∧
    (playerAt (handAt (ParseReader c6Events) 0) 4).threeBet = true := by
  refine ⟨by decide, by decide, by decide, by decide⟩

/-! ## Claim C1 — blind inference at finalize -/

/-- C1 counterexample: a finalized hand with a single active seat and a
voluntary pre-flop action (seat 1 checks).  The claim's rotation rule
(predecessor modulo the active-set size) would make seat 1 its own BB
and SB, but `inferBlindsFromPreflop` refuses to infer anything for
fewer than two active seats and leaves both blinds at −1. -/
theorem C1_blind_inference_counterexample :
    (dummyHand : Hand).sbSeat = -1 ∧ (dummyHand : Hand).bbSeat = -1 ∧
    sortInts ({ dummyHand with activeSeats := [1] } : Hand).activeSeats = [1] ∧
    firstVoluntarySeat [{ seatID := 1, action := .check, amount := 0 }] = 1 ∧
    (sortInts ({ dummyHand with activeSeats := [1] } : Hand).activeSeats).getD ((0 + 1 - 1) % 1) (-1) = 1 ∧
    (inferBlindsFromPreflop [{ seatID := 1, action := .check, amount := 0 }]
      { dummyHand with activeSeats := [1] }).1 = false ∧
    (inferBlindsFromPreflop [{ seatID := 1, action := .check, amount := 0 }]
      { dummyHand with activeSeats := [1] }).2.bbSeat = -1 ∧
    (inferBlindsFromPreflop [{ seatID := 1, action := .check, amount := 0 }]
      { dummyHand with activeSeats := [1] }).2.bbSeat ≠ 1 := by
  refine ⟨by decide, by decide, by decide, by decide, by decide, by decide, by decide, by decide⟩

/-- C1 (amended): provided the sorted-by-seat-number active set has at
least two seats, `inferBlindsFromPreflop` derives the blinds exactly as
claimed: with neither blind recorded and a voluntary first actor found
in the active set, BB is that seat's predecessor and SB the seat two
before it (modulo the active-set size); with exactly one blind
recorded, the missing one is obtained by rotating one position. -/
theorem C1_blind_inference (pf : List pfAction) (h : Hand)
    (hn : 2 ≤ (sortInts h.activeSeats).length) :
    (h.sbSeat < 0 → h.bbSeat < 0 → 0 ≤ firstVoluntarySeat pf →
      ∀ idx, (sortInts h.activeSeats).findIdx? (· = firstVoluntarySeat pf) = some idx →
        (inferBlindsFromPreflop pf h).1 = true ∧
        (inferBlindsFromPreflop pf h).2.bbSeat =
          (sortInts h.activeSeats).getD
            ((idx + (sortInts h.activeSeats).length - 1) % (sortInts h.activeSeats).length) (-1) ∧
        (inferBlindsFromPreflop pf h).2.sbSeat =
          (sortInts h.activeSeats).getD
            ((idx + (sortInts h.activeSeats).length - 2) % (sortInts h.activeSeats).length) (-1)) ∧
    (0 ≤ h.sbSeat → h.bbSeat < 0 →
      ∀ idx, (sortInts h.activeSeats).findIdx? (· = h.sbSeat) = some idx →
        (inferBlindsFromPreflop pf h).1 = true ∧
        (inferBlindsFromPreflop pf h).2.bbSeat =
          (sortInts h.activeSeats).getD ((idx + 1) % (sortInts h.activeSeats).length) (-1) ∧
        (inferBlindsFromPreflop pf h).2.sbSeat = h.sbSeat) ∧
    (0 ≤ h.bbSeat → h.sbSeat < 0 →
      ∀ idx, (sortInts h.activeSeats).findIdx? (· = h.bbSeat) = some idx →
        (inferBlindsFromPreflop pf h).1 = true ∧
        (inferBlindsFromPreflop pf h).2.sbSeat =
          (sortInts h.activeSeats).getD
            ((idx + (sortInts h.activeSeats).length - 1) % (sortInts h.activeSeats).length) (-1) ∧
        (inferBlindsFromPreflop pf h).2.bbSeat = h.bbSeat) := by
  refine ⟨?_, ?_, ?_⟩
  · intro hsb hbb hfv idx hidx
    unfold inferBlindsFromPreflop
    rw [if_neg (by omega), if_neg (by omega)]
    have h1 : (if 0 ≤ h.sbSeat ∧ h.bbSeat < 0 then
        (sortInts h.activeSeats).findIdx? (· = h.sbSeat) else none) = none := by
      rw [if_neg (by omega)]
    have h2 : (if 0 ≤ h.bbSeat ∧ h.sbSeat < 0 then
        (sortInts h.activeSeats).findIdx? (· = h.bbSeat) else none) = none := by
      rw [if_neg (by omega)]
    rw [h1, h2]
    dsimp only
    rw [if_neg (by omega), hidx]
    exact ⟨rfl, rfl, rfl⟩
  · intro hsb hbb idx hidx
    unfold inferBlindsFromPreflop
    rw [if_neg (by omega), if_neg (by omega)]
    have h1 : (if 0 ≤ h.sbSeat ∧ h.bbSeat < 0 then
        (sortInts h.activeSeats).findIdx? (· = h.sbSeat) else none) = some idx := by
      rw [if_pos ⟨hsb, hbb⟩]; exact hidx
    rw [h1]
    exact ⟨rfl, rfl, rfl⟩
  · intro hbb hsb idx hidx
    unfold inferBlindsFromPreflop
    rw [if_neg (by omega), if_neg (by omega)]
    have h1 : (if 0 ≤ h.sbSeat ∧ h.bbSeat < 0 then
        (sortInts h.activeSeats).findIdx? (· = h.sbSeat) else none) = none := by
      rw [if_neg (by omega)]
    have h2 : (if 0 ≤ h.bbSeat ∧ h.sbSeat < 0 then
        (sortInts h.activeSeats).findIdx? (· = h.bbSeat) else none) = some idx := by
      rw [if_pos ⟨hbb, hsb⟩]; exact hidx
    rw [h1, h2]
    exact ⟨rfl, rfl, rfl⟩

/-- Witness for C1, scenario S5 of the spec: active seats {2,3,4}, no
blinds recorded, first voluntary actor seat 3 → BB = 2, SB = 4. -/
theorem C1_blind_inference_witness :
    2 ≤ (sortInts ({ dummyHand with activeSeats := [3, 4, 2] } : Hand).activeSeats).length ∧
    (inferBlindsFromPreflop
      [{ seatID := 3, action := .raise, amount := 40 },
       { seatID := 4, action := .fold, amount := 0 },
       { seatID := 2, action := .fold, amount := 0 }]
      { dummyHand with activeSeats := [3, 4, 2] }).2.bbSeat = 2 ∧
    (inferBlindsFromPreflop
      [{ seatID := 3, action := .raise, amount := 40 },
       { seatID := 4, action := .fold, amount := 0 },
       { seatID := 2, action := .fold, amount := 0 }]
      { dummyHand with activeSeats := [3, 4, 2] }).2.sbSeat = 4 := by
  have hc := (C1_blind_inference
    [{ seatID := 3, action := .raise, amount := 40 },
     { seatID := 4, action := .fold, amount := 0 },
     { seatID := 2, action := .fold, amount := 0 }]
    { dummyHand with activeSeats := [3, 4, 2] } (by decide)).1
    (by decide) (by decide) (by decide) 1 (by decide)
  exact ⟨by decide, hc.2.1.trans (by decide), hc.2.2.trans (by decide)⟩

/-! ## Claim C2 — VPIP exclusions on pre-flop calls -/

/-- Scenario S6 of the spec: SB seat 2 posts 10, BB seat 3 posts 20,
seat 2 calls to 20 with no raise before.  (`drawLocalHole` makes the
hand the local player's so that it is kept.) -/
def s6Events : List TimedEvent :=
  [⟨1, .newGame⟩, ⟨2, .sbBet 2 10⟩, ⟨3, .bbBet 3 20⟩, ⟨4, .drawLocalHole "Ah, Kd"⟩,
   ⟨5, .endTurn 2 20⟩]

/-- C2: in the pre-flop pass, a call leaves the VPIP flag exactly as
claimed: it is not set when the caller is the SB seat completing to at
most the BB amount at bet level ≤ 2, nor when the caller is the BB
seat at bet level ≤ 2; every other call sets it.  On scenario S6 the
SB seat therefore ends the hand with VPIP = false. -/
theorem C2_sb_completion_not_vpip :
    (∀ (sbSeat bbSeat : Int) (st : PFState) (s : Int) (a : Nat) (pi : PlayerHandInfo),
      st.players s = some pi →
      (pfStep sbSeat bbSeat st { seatID := s, action := .call, amount := a }).players s =
        some { pi with vpip := pi.vpip ||
          !(decide ((s = sbSeat ∧ a ≤ bbAmountOf st.players bbSeat ∧ st.betLevel ≤ 2) ∨
                    (s = bbSeat ∧ st.betLevel ≤ 2))) }) ∧
    (ParseReader s6Events).hands.length = 1 ∧
    (playerAt (handAt (ParseReader s6Events) 0) 2).vpip = false ∧
    (actionsOf (handAt (ParseReader s6Events) 0) 2).map PlayerAction.action =
      [.blindSB, .call] := by
  refine ⟨?_, by decide, by decide, by decide⟩
  intro sbSeat bbSeat st s a pi hpi
  unfold pfStep
  rw [hpi]
  dsimp only
  by_cases h1 : s = sbSeat ∧ a ≤ bbAmountOf st.players bbSeat
  · rw [if_pos h1]
    by_cases h2 : 2 < st.betLevel
    · rw [if_pos h2]
      have hd : decide ((s = sbSeat ∧ a ≤ bbAmountOf st.players bbSeat ∧ st.betLevel ≤ 2) ∨
          (s = bbSeat ∧ st.betLevel ≤ 2)) = false := by
        apply decide_eq_false
        rintro (⟨-, -, hL⟩ | ⟨-, hL⟩) <;> omega
      simp [pfModify, hpi, hd]
    · rw [if_neg h2]
      have hd : decide ((s = sbSeat ∧ a ≤ bbAmountOf st.players bbSeat ∧ st.betLevel ≤ 2) ∨
          (s = bbSeat ∧ st.betLevel ≤ 2)) = true :=
        decide_eq_true (Or.inl ⟨h1.1, h1.2, by omega⟩)
      rw [hpi, hd]
      simp
  · rw [if_neg h1]
    by_cases h2 : s = bbSeat ∧ st.betLevel ≤ 2
    · rw [if_pos h2]
      have hd : decide ((s = sbSeat ∧ a ≤ bbAmountOf st.players bbSeat ∧ st.betLevel ≤ 2) ∨
          (s = bbSeat ∧ st.betLevel ≤ 2)) = true :=
        decide_eq_true (Or.inr h2)
      rw [hpi, hd]
      simp
    · rw [if_neg h2]
      have hd : decide ((s = sbSeat ∧ a ≤ bbAmountOf st.players bbSeat ∧ st.betLevel ≤ 2) ∨
          (s = bbSeat ∧ st.betLevel ≤ 2)) = false := by
        apply decide_eq_false
        rintro (⟨hsb', hle, -⟩ | hbb')
        · exact h1 ⟨hsb', hle⟩
        · exact h2 hbb'
      simp [pfModify, hpi, hd]

/-- Witness for C2: a BB-seat call at bet level 2 (closing action)
leaves VPIP unset. -/
theorem C2_sb_completion_not_vpip_witness :
    ({ betLevel := 2, raiserAt := fun _ => none,
       players := fun s => if s = 3 then some { seatID := 3 } else none } : PFState).players 3 =
      some { seatID := 3 } ∧
    (pfStep 2 3
      { betLevel := 2, raiserAt := fun _ => none,
        players := fun s => if s = 3 then some { seatID := 3 } else none }
      { seatID := 3, action := .call, amount := 20 }).players 3 =
      some { seatID := 3 } := by
  have hc := C2_sb_completion_not_vpip.1 2 3
    { betLevel := 2, raiserAt := fun _ => none,
      players := fun s => if s = 3 then some { seatID := 3 } else none }
    3 20 { seatID := 3 } (by decide)
  refine ⟨by decide, hc.trans ?_⟩
  decide

/-! ## Claim C7 — voluntary-action recording -/

/-- After `ensurePlayer` and the action append, a seat's action list is
its previous list (empty when the seat was new) plus the new action. -/
theorem actionsOf_append_ensure (h : Hand) (s : Int) (a : PlayerAction) :
    actionsOf (appendActionH (ensurePlayerH h s) s a) s = actionsOf h s ++ [a] := by
  unfold actionsOf playerAt appendActionH updatePlayer ensurePlayerH
  cases hps : h.players s <;> simp [hps]

/-- C7: an `End Turn` event by a seat that already folded only records
the timestamp; otherwise exactly one action is appended for the seat
with kind check / bet / raise / call decided by the amount and the
street-bet level, the street-bet level rises to the amount when
exceeded, and the seat's street commitment is set unconditionally
(other seats' commitments unchanged). -/
theorem C7_action_classification (p : Parser) (h : Hand) (ts seat amount : Nat)
    (hcur : p.currentHand = some h) :
    (p.foldedThisHand (seat : Int) = true →
      ParseLine p ⟨ts, .endTurn seat amount⟩ = { p with lastTimestamp := ts }) ∧
    (p.foldedThisHand (seat : Int) = false →
      (∀ hp : Hand, (ParseLine p ⟨ts, .endTurn seat amount⟩).currentHand = some hp →
        actionsOf hp (seat : Int) =
          actionsOf h (seat : Int) ++
            [{ timestamp := ts, playerID := (seat : Int), street := p.currentStreet,
               action :=
                 if amount = 0 then .check
                 else if p.streetBetAmount = 0 then .bet
                 else if p.streetBetAmount < amount then .raise
                 else .call,
               amount := amount }]) ∧
      (ParseLine p ⟨ts, .endTurn seat amount⟩).streetBetAmount = max p.streetBetAmount amount ∧
      (ParseLine p ⟨ts, .endTurn seat amount⟩).streetBets (seat : Int) = amount ∧
      (∀ s' : Int, s' ≠ (seat : Int) →
        (ParseLine p ⟨ts, .endTurn seat amount⟩).streetBets s' = p.streetBets s')) := by
  have hl : ParseLine p ⟨ts, .endTurn seat amount⟩ =
      handleEndTurn { p with lastTimestamp := ts } h ts seat amount := by
    unfold ParseLine processPokerEvent
    dsimp only
    rw [hcur]
  constructor
  · intro hf
    rw [hl]
    unfold handleEndTurn
    rw [if_pos hf]
  · intro hf
    have hfields :
        (ParseLine p ⟨ts, .endTurn seat amount⟩).currentHand =
          some (appendActionH (ensurePlayerH h (seat : Int)) (seat : Int)
            { timestamp := ts, playerID := (seat : Int), street := p.currentStreet,
              action := classifyAction { p with lastTimestamp := ts } (seat : Int) amount,
              amount := amount }) ∧
        (ParseLine p ⟨ts, .endTurn seat amount⟩).streetBetAmount =
          (if p.streetBetAmount < amount then amount else p.streetBetAmount) ∧
        (ParseLine p ⟨ts, .endTurn seat amount⟩).streetBets =
          (fun s' => if s' = (seat : Int) then amount else p.streetBets s') := by
      rw [hl]
      unfold handleEndTurn
      rw [if_neg (by rw [hf]; exact Bool.false_ne_true)]
      dsimp only
      split <;> exact ⟨rfl, rfl, rfl⟩
    have hcls : classifyAction { p with lastTimestamp := ts } (seat : Int) amount =
        (if amount = 0 then .check
         else if p.streetBetAmount = 0 then .bet
         else if p.streetBetAmount < amount then .raise
         else .call : ActionType) := rfl
    refine ⟨?_, ?_, ?_, ?_⟩
    · intro hp hhp
      rw [hfields.1] at hhp
      rw [Option.some_inj] at hhp
      rw [← hhp, hcls]
      exact actionsOf_append_ensure h (seat : Int) _
    · rw [hfields.2.1]
      split <;> omega
    · rw [hfields.2.2]
      simp
    · intro s' hs'
      rw [hfields.2.2]
      simp [hs']

/-- Parser state after a new game and both blinds (seats 2 and 3),
used by the C7 witness. -/
def c7Parser : Parser :=
  [⟨1, .newGame⟩, ⟨2, .sbBet 2 10⟩, ⟨3, .bbBet 3 20⟩].foldl ParseLine NewParser

/-- The in-progress hand of `c7Parser`. -/
def c7Hand : Hand :=
  c7Parser.currentHand.getD dummyHand

/-- Witness for C7: seat 5 ends its turn with 60 over a street bet of
20 — a raise; the street-bet level rises to 60 and the seat's street
commitment becomes 60. -/
theorem C7_action_classification_witness :
    c7Parser.currentHand = some c7Hand ∧
    c7Parser.foldedThisHand 5 = false ∧
    (ParseLine c7Parser ⟨4, .endTurn 5 60⟩).streetBetAmount = 60 ∧
    (ParseLine c7Parser ⟨4, .endTurn 5 60⟩).streetBets 5 = 60 := by
  have hc := C7_action_classification c7Parser c7Hand 4 5 60 rfl
  have hf : c7Parser.foldedThisHand 5 = false := by decide
  have h2 := hc.2 hf
  exact ⟨rfl, hf, h2.2.1.trans (by decide), h2.2.2.1⟩

/-! ## Preservation machinery for finalization proofs -/

/-- View of a player entry keeping only pot winnings, won flag and
actions (what the later finalize stages must not change). -/
def pwaView (o : Option PlayerHandInfo) : Option (Nat × Bool × List PlayerAction) :=
  o.map fun pi => (pi.potWon, pi.won, pi.actions)

/-- Two hands agree on everything the invariant theorems observe except
positions, aggregate flags and the active-seat bookkeeping: win type,
community cards, winner seat, total pot, and the per-seat pot / won /
actions observations (absent entries count as the Go zero values). -/
structure SameCore (h h' : Hand) : Prop where
  winType : h'.winType = h.winType
  communityCards : h'.communityCards = h.communityCards
  winnerSeat : h'.winnerSeat = h.winnerSeat
  totalPot : h'.totalPot = h.totalPot
  potWon : ∀ s, potWonAt h' s = potWonAt h s
  won : ∀ s, wonAt h' s = wonAt h s
  acts : ∀ s, actionsOf h' s = actionsOf h s

theorem sameCore_refl (h : Hand) : SameCore h h :=
  ⟨rfl, rfl, rfl, rfl, fun _ => rfl, fun _ => rfl, fun _ => rfl⟩

theorem sameCore_trans {h1 h2 h3 : Hand} (a : SameCore h1 h2) (b : SameCore h2 h3) :
    SameCore h1 h3 :=
  ⟨b.winType.trans a.winType, b.communityCards.trans a.communityCards,
   b.winnerSeat.trans a.winnerSeat, b.totalPot.trans a.totalPot,
   fun s => (b.potWon s).trans (a.potWon s),
   fun s => (b.won s).trans (a.won s),
   fun s => (b.acts s).trans (a.acts s)⟩

/-- `ensurePlayer` preserves the core view: a created entry carries the
zero-value pot, won flag and action list. -/
theorem sameCore_ensure (h : Hand) (s : Int) : SameCore h (ensurePlayerH h s) := by
  unfold ensurePlayerH
  cases hps : h.players s
  · refine ⟨rfl, rfl, rfl, rfl, fun s' => ?_, fun s' => ?_, fun s' => ?_⟩ <;>
    · by_cases hs : s' = s
      · subst hs
        simp [potWonAt, wonAt, actionsOf, playerAt, hps]
      · simp [potWonAt, wonAt, actionsOf, playerAt, hs]
  · exact sameCore_refl h

/-- `updatePlayer` with a pot/won/actions-preserving function preserves
the core view. -/
theorem sameCore_update (h : Hand) (s : Int) (f : PlayerHandInfo → PlayerHandInfo)
    (hf : ∀ pi, (f pi).potWon = pi.potWon ∧ (f pi).won = pi.won ∧ (f pi).actions = pi.actions) :
    SameCore h (updatePlayer h s f) := by
  refine ⟨rfl, rfl, rfl, rfl, fun s' => ?_, fun s' => ?_, fun s' => ?_⟩ <;>
  · by_cases hs : s' = s
    · subst hs
      cases hps : h.players s' <;>
        simp [updatePlayer, potWonAt, wonAt, actionsOf, playerAt, hps, hf]
    · simp [updatePlayer, potWonAt, wonAt, actionsOf, playerAt, hs]

/-- The position-assignment fold preserves the core view. -/
theorem sameCore_positionFold (positions : List Position) :
    ∀ (l : List (Nat × Int)) (h : Hand),
      SameCore h (l.foldl (fun h' si =>
        if si.1 < positions.length then
          updatePlayer h' si.2 (fun pi => { pi with position := positions.getD si.1 .unknown })
        else h') h)
  | [], h => sameCore_refl h
  | x :: xs, h => by
    rw [List.foldl_cons]
    refine sameCore_trans ?_ (sameCore_positionFold positions xs _)
    split
    · exact sameCore_update _ _ _ (fun pi => ⟨rfl, rfl, rfl⟩)
    · exact sameCore_refl h

/-- `assignPositions` preserves the core view. -/
theorem sameCore_assignPositions (h : Hand) : SameCore h (assignPositions h) := by
  unfold assignPositions
  split
  · exact sameCore_refl h
  · dsimp only
    split
    · exact sameCore_refl h
    · exact sameCore_positionFold _ _ _

theorem potWonAt_congr_view {h h' : Hand} (s : Int)
    (hv : pwaView (h'.players s) = pwaView (h.players s)) :
    potWonAt h' s = potWonAt h s := by
  unfold potWonAt
  cases hps : h.players s <;> cases hps' : h'.players s <;>
    simp [pwaView, hps, hps'] at hv ⊢
  exact hv.1

theorem wonAt_congr_view {h h' : Hand} (s : Int)
    (hv : pwaView (h'.players s) = pwaView (h.players s)) :
    wonAt h' s = wonAt h s := by
  unfold wonAt
  cases hps : h.players s <;> cases hps' : h'.players s <;>
    simp [pwaView, hps, hps'] at hv ⊢
  exact hv.2.1

theorem actionsOf_congr_view {h h' : Hand} (s : Int)
    (hv : pwaView (h'.players s) = pwaView (h.players s)) :
    actionsOf h' s = actionsOf h s := by
  unfold actionsOf playerAt
  cases hps : h.players s <;> cases hps' : h'.players s <;>
    simp [pwaView, hps, hps'] at hv ⊢
  exact hv.2.2

theorem pfModify_view (st : PFState) (s : Int) (f : PlayerHandInfo → PlayerHandInfo)
    (hf : ∀ pi, (f pi).potWon = pi.potWon ∧ (f pi).won = pi.won ∧ (f pi).actions = pi.actions)
    (s' : Int) : pwaView ((pfModify st s f).players s') = pwaView (st.players s') := by
  unfold pfModify
  dsimp only
  by_cases hs : s' = s
  · subst hs
    cases hps : st.players s' <;>
      simp [pwaView, hps, (hf _).1, (hf _).2.1, (hf _).2.2]
  · simp [hs]

/-- One pre-flop pass step only writes aggregate flags: the pot / won /
actions view of every seat is unchanged. -/
theorem pfStep_view (sb bb : Int) (st : PFState) (act : pfAction) (s' : Int) :
    pwaView ((pfStep sb bb st act).players s') = pwaView (st.players s') := by
  unfold pfStep
  cases hps : st.players act.seatID
  · rfl
  · cases hact : act.action <;> dsimp only <;>
      (repeat' split) <;>
      first
        | rfl
        | (apply pfModify_view
           intro pi
           exact ⟨rfl, rfl, rfl⟩)

theorem pfFold_view (sb bb : Int) :
    ∀ (pf : List pfAction) (st : PFState) (s' : Int),
      pwaView ((pf.foldl (pfStep sb bb) st).players s') = pwaView (st.players s')
  | [], _, _ => rfl
  | a :: rest, st, s' => by
    rw [List.foldl_cons]
    exact (pfFold_view sb bb rest _ s').trans (pfStep_view sb bb st a s')

/-- `calculatePreflopStats` preserves the core view. -/
theorem sameCore_pfStats (pf : List pfAction) (h : Hand) :
    SameCore h (calculatePreflopStats pf h) := by
  unfold calculatePreflopStats
  split
  · exact sameCore_refl h
  · exact ⟨rfl, rfl, rfl, rfl,
      fun s => potWonAt_congr_view s (pfFold_view h.sbSeat h.bbSeat pf _ s),
      fun s => wonAt_congr_view s (pfFold_view h.sbSeat h.bbSeat pf _ s),
      fun s => actionsOf_congr_view s (pfFold_view h.sbSeat h.bbSeat pf _ s)⟩

/-! ## Winner-application lemmas -/

theorem applyWinner_potWonAt (h : Hand) (w : pendingWin) (s : Int) :
    potWonAt (applyWinner h w) s =
      if s = (w.seatID : Int) then potWonAt h s + w.amount else potWonAt h s := by
  unfold applyWinner
  by_cases hs : s = (w.seatID : Int)
  · subst hs
    cases hps : h.players (w.seatID : Int) <;>
      simp [ensurePlayerH, updatePlayer, potWonAt, hps]
  · cases hps : h.players (w.seatID : Int) <;>
      simp [ensurePlayerH, updatePlayer, potWonAt, hps, hs]

theorem applyWinner_wonAt (h : Hand) (w : pendingWin) (s : Int) :
    wonAt (applyWinner h w) s = if s = (w.seatID : Int) then true else wonAt h s := by
  unfold applyWinner
  by_cases hs : s = (w.seatID : Int)
  · subst hs
    cases hps : h.players (w.seatID : Int) <;>
      simp [ensurePlayerH, updatePlayer, wonAt, hps]
  · cases hps : h.players (w.seatID : Int) <;>
      simp [ensurePlayerH, updatePlayer, wonAt, hps, hs]

theorem applyWinner_winnerSeat (h : Hand) (w : pendingWin) :
    (applyWinner h w).winnerSeat = (w.seatID : Int) := rfl

theorem applyWinner_winType (h : Hand) (w : pendingWin) :
    (applyWinner h w).winType = h.winType := by
  unfold applyWinner
  cases hps : h.players (w.seatID : Int) <;>
    simp [ensurePlayerH, updatePlayer, hps]

theorem applyWinner_communityCards (h : Hand) (w : pendingWin) :
    (applyWinner h w).communityCards = h.communityCards := by
  unfold applyWinner
  cases hps : h.players (w.seatID : Int) <;>
    simp [ensurePlayerH, updatePlayer, hps]

theorem applyWinner_actionsOf (h : Hand) (w : pendingWin) (s : Int) :
    actionsOf (applyWinner h w) s = actionsOf h s := by
  unfold applyWinner
  by_cases hs : s = (w.seatID : Int)
  · subst hs
    cases hps : h.players (w.seatID : Int) <;>
      simp [ensurePlayerH, updatePlayer, actionsOf, playerAt, hps]
  · cases hps : h.players (w.seatID : Int) <;>
      simp [ensurePlayerH, updatePlayer, actionsOf, playerAt, hps, hs]

theorem applyWinners_potWonAt :
    ∀ (ws : List pendingWin) (h : Hand) (s : Int),
      potWonAt (applyWinners h ws) s =
        potWonAt h s + ((ws.filter (fun w => s = (w.seatID : Int))).map pendingWin.amount).sum
  | [], h, s => by simp [applyWinners]
  | w :: rest, h, s => by
    unfold applyWinners
    rw [List.foldl_cons]
    have ih := applyWinners_potWonAt rest (applyWinner h w) s
    unfold applyWinners at ih
    rw [ih, applyWinner_potWonAt]
    by_cases hs : s = (w.seatID : Int)
    · simp [hs, List.filter_cons]
      omega
    · simp [hs, List.filter_cons]

theorem applyWinners_wonAt_mono :
    ∀ (ws : List pendingWin) (h : Hand) (s : Int), wonAt h s = true →
      wonAt (applyWinners h ws) s = true
  | [], _, _, hw => hw
  | w :: rest, h, s, hw => by
    unfold applyWinners
    rw [List.foldl_cons]
    refine applyWinners_wonAt_mono rest _ s ?_
    rw [applyWinner_wonAt]
    split
    · rfl
    · exact hw

theorem applyWinners_wonAt_mem :
    ∀ (ws : List pendingWin) (h : Hand) (w : pendingWin), w ∈ ws →
      wonAt (applyWinners h ws) (w.seatID : Int) = true
  | [], _, _, hmem => absurd hmem (List.not_mem_nil _)
  | w' :: rest, h, w, hmem => by
    unfold applyWinners
    rw [List.foldl_cons]
    rcases List.mem_cons.mp hmem with heq | hmem'
    · subst heq
      refine applyWinners_wonAt_mono rest _ _ ?_
      rw [applyWinner_wonAt]
      simp
    · exact applyWinners_wonAt_mem rest _ w hmem'

theorem applyWinners_winnerSeat :
    ∀ (ws : List pendingWin) (h : Hand),
      (applyWinners h ws).winnerSeat =
        ((ws.getLast?).map (fun w => (w.seatID : Int))).getD h.winnerSeat
  | [], _ => rfl
  | w :: rest, h => by
    unfold applyWinners
    rw [List.foldl_cons]
    have ih := applyWinners_winnerSeat rest (applyWinner h w)
    unfold applyWinners at ih
    rw [ih, applyWinner_winnerSeat]
    cases rest with
    | nil => rfl
    | cons r rs =>
      rw [List.getLast?_cons_cons]
      cases hgl : (r :: rs).getLast? with
      | none => simp at hgl
      | some l => simp [hgl]

theorem applyWinners_winType :
    ∀ (ws : List pendingWin) (h : Hand), (applyWinners h ws).winType = h.winType
  | [], _ => rfl
  | w :: rest, h => by
    unfold applyWinners
    rw [List.foldl_cons]
    have ih := applyWinners_winType rest (applyWinner h w)
    unfold applyWinners at ih
    rw [ih, applyWinner_winType]

theorem applyWinners_communityCards :
    ∀ (ws : List pendingWin) (h : Hand), (applyWinners h ws).communityCards = h.communityCards
  | [], _ => rfl
  | w :: rest, h => by
    unfold applyWinners
    rw [List.foldl_cons]
    have ih := applyWinners_communityCards rest (applyWinner h w)
    unfold applyWinners at ih
    rw [ih, applyWinner_communityCards]

theorem applyWinners_actionsOf :
    ∀ (ws : List pendingWin) (h : Hand) (s : Int), actionsOf (applyWinners h ws) s = actionsOf h s
  | [], _, _ => rfl
  | w :: rest, h, s => by
    unfold applyWinners
    rw [List.foldl_cons]
    have ih := applyWinners_actionsOf rest (applyWinner h w) s
    unfold applyWinners at ih
    rw [ih, applyWinner_actionsOf]

/-! ## Fiber sums for the total-pot equality -/

theorem sum_map_add (L : List Int) (f g : Int → Nat) :
    (L.map (fun s => f s + g s)).sum = (L.map f).sum + (L.map g).sum := by
  induction L with
  | nil => rfl
  | cons x xs ih => simp [ih]; omega

theorem sum_if_not_mem :
    ∀ (L : List Int) (a : Int) (c : Nat), a ∉ L →
      (L.map (fun s => if s = a then c else 0)).sum = 0
  | [], _, _, _ => rfl
  | x :: xs, a, c, hmem => by
    have hx : ¬x = a := fun hxa => hmem (hxa ▸ List.mem_cons_self x xs)
    simp [hx, sum_if_not_mem xs a c (fun hm => hmem (List.mem_cons_of_mem _ hm))]

theorem sum_if_mem :
    ∀ (L : List Int) (a : Int) (c : Nat), L.Nodup → a ∈ L →
      (L.map (fun s => if s = a then c else 0)).sum = c
  | [], _, _, _, hmem => absurd hmem (List.not_mem_nil _)
  | x :: xs, a, c, hnd, hmem => by
    rcases List.mem_cons.mp hmem with heq | hmem'
    · subst heq
      simp [sum_if_not_mem xs a c (List.nodup_cons.mp hnd).1]
    · have hx : ¬x = a := by
        intro hxa
        exact (List.nodup_cons.mp hnd).1 (hxa ▸ hmem')
      simp [hx, sum_if_mem xs a c (List.nodup_cons.mp hnd).2 hmem']

theorem sum_fiber_amounts :
    ∀ (ws : List pendingWin) (L : List Int), L.Nodup →
      (∀ w ∈ ws, (w.seatID : Int) ∈ L) →
      (L.map (fun s => ((ws.filter (fun w => s = (w.seatID : Int))).map pendingWin.amount).sum)).sum =
        (ws.map pendingWin.amount).sum
  | [], L, _, _ => by simp
  | w :: rest, L, hnd, hmem => by
    have ih := sum_fiber_amounts rest L hnd (fun w' hw' => hmem w' (List.mem_cons_of_mem _ hw'))
    have hsplit : (L.map (fun s =>
        ((List.filter (fun w' => decide (s = (w'.seatID : Int))) (w :: rest)).map pendingWin.amount).sum)).sum =
        (L.map (fun s => (if s = (w.seatID : Int) then w.amount else 0) +
          ((rest.filter (fun w' => s = (w'.seatID : Int))).map pendingWin.amount).sum)).sum := by
      have hfun : (fun (s : Int) =>
          ((List.filter (fun w' => decide (s = (w'.seatID : Int))) (w :: rest)).map pendingWin.amount).sum) =
          (fun (s : Int) => (if s = (w.seatID : Int) then w.amount else 0) +
            ((rest.filter (fun w' => s = (w'.seatID : Int))).map pendingWin.amount).sum) := by
        funext s
        rw [List.filter_cons]
        by_cases hs : s = (w.seatID : Int) <;> simp [hs]
      rw [hfun]
    rw [hsplit, sum_map_add, ih,
        sum_if_mem L (w.seatID : Int) w.amount hnd (hmem w (List.mem_cons_self w rest))]
    simp

/-! ## Per-stage observation lemmas for `finalizeHand` -/

theorem sameCore_pendingAssign (p : Parser) (h : Hand) : SameCore h (pendingAssign p h) := by
  unfold pendingAssign
  cases p.pendingLocalCards with
  | none => exact sameCore_refl h
  | some cards =>
    dsimp only
    split
    · have c3 := sameCore_trans (sameCore_ensure h p.result.localPlayerSeat)
        (sameCore_update (ensurePlayerH h p.result.localPlayerSeat) p.result.localPlayerSeat
          (fun pi => { pi with holeCards := cards }) (fun pi => ⟨rfl, rfl, rfl⟩))
      exact ⟨c3.winType, c3.communityCards, c3.winnerSeat, c3.totalPot, c3.potWon, c3.won, c3.acts⟩
    · exact sameCore_refl h

theorem potWonAt_setTotalPot (p : Parser) (h : Hand) (s : Int) :
    potWonAt (setTotalPot p h) s = potWonAt h s := rfl
theorem wonAt_setTotalPot (p : Parser) (h : Hand) (s : Int) :
    wonAt (setTotalPot p h) s = wonAt h s := rfl
theorem winnerSeat_setTotalPot (p : Parser) (h : Hand) :
    (setTotalPot p h).winnerSeat = h.winnerSeat := rfl
theorem totalPot_setTotalPot (p : Parser) (h : Hand) :
    (setTotalPot p h).totalPot = (p.pendingWinners.map pendingWin.amount).sum := rfl

theorem potWonAt_inferWinType (h : Hand) (s : Int) :
    potWonAt (inferWinType h) s = potWonAt h s := by
  unfold inferWinType; split <;> rfl
theorem wonAt_inferWinType (h : Hand) (s : Int) :
    wonAt (inferWinType h) s = wonAt h s := by
  unfold inferWinType; split <;> rfl
theorem actionsOf_inferWinType (h : Hand) (s : Int) :
    actionsOf (inferWinType h) s = actionsOf h s := by
  unfold inferWinType; split <;> rfl
theorem winnerSeat_inferWinType (h : Hand) :
    (inferWinType h).winnerSeat = h.winnerSeat := by
  unfold inferWinType; split <;> rfl
theorem totalPot_inferWinType (h : Hand) :
    (inferWinType h).totalPot = h.totalPot := by
  unfold inferWinType; split <;> rfl
theorem communityCards_inferWinType (h : Hand) :
    (inferWinType h).communityCards = h.communityCards := by
  unfold inferWinType; split <;> rfl
theorem winType_inferWinType (h : Hand) :
    (inferWinType h).winType =
      if h.winType = "" then (if 3 ≤ h.communityCards.length then "showdown" else "fold")
      else h.winType := by
  unfold inferWinType; split <;> simp [*]

theorem potWonAt_setNumPlayers (h : Hand) (s : Int) :
    potWonAt (setNumPlayers h) s = potWonAt h s := rfl
theorem wonAt_setNumPlayers (h : Hand) (s : Int) :
    wonAt (setNumPlayers h) s = wonAt h s := rfl
theorem winnerSeat_setNumPlayers (h : Hand) :
    (setNumPlayers h).winnerSeat = h.winnerSeat := rfl
theorem totalPot_setNumPlayers (h : Hand) :
    (setNumPlayers h).totalPot = h.totalPot := rfl

theorem potWonAt_setEndTime (p : Parser) (h : Hand) (s : Int) :
    potWonAt (setEndTime p h) s = potWonAt h s := rfl
theorem wonAt_setEndTime (p : Parser) (h : Hand) (s : Int) :
    wonAt (setEndTime p h) s = wonAt h s := rfl
theorem winnerSeat_setEndTime (p : Parser) (h : Hand) :
    (setEndTime p h).winnerSeat = h.winnerSeat := rfl
theorem totalPot_setEndTime (p : Parser) (h : Hand) :
    (setEndTime p h).totalPot = h.totalPot := rfl

theorem potWonAt_setComplete (p : Parser) (h : Hand) (s : Int) :
    potWonAt (setComplete p h) s = potWonAt h s := rfl
theorem wonAt_setComplete (p : Parser) (h : Hand) (s : Int) :
    wonAt (setComplete p h) s = wonAt h s := rfl
theorem winnerSeat_setComplete (p : Parser) (h : Hand) :
    (setComplete p h).winnerSeat = h.winnerSeat := rfl
theorem totalPot_setComplete (p : Parser) (h : Hand) :
    (setComplete p h).totalPot = h.totalPot := rfl

/-- The observations of a finalized hand reduce to those of the
winner-application stage. -/
theorem finalizeHand_obs (p : Parser) (h : Hand) :
    (∀ s, potWonAt (finalizeHand p h) s =
      potWonAt (applyWinners (pendingAssign p h) p.pendingWinners) s) ∧
    (∀ s, wonAt (finalizeHand p h) s =
      wonAt (applyWinners (pendingAssign p h) p.pendingWinners) s) ∧
    (finalizeHand p h).winnerSeat =
      (applyWinners (pendingAssign p h) p.pendingWinners).winnerSeat ∧
    (finalizeHand p h).totalPot = (p.pendingWinners.map pendingWin.amount).sum := by
  refine ⟨fun s => ?_, fun s => ?_, ?_, ?_⟩
  · unfold finalizeHand
    rw [potWonAt_setComplete, potWonAt_setEndTime, (sameCore_pfStats p.pfActions _).potWon,
        (sameCore_assignPositions _).potWon, potWonAt_setNumPlayers, potWonAt_inferWinType,
        potWonAt_setTotalPot]
  · unfold finalizeHand
    rw [wonAt_setComplete, wonAt_setEndTime, (sameCore_pfStats p.pfActions _).won,
        (sameCore_assignPositions _).won, wonAt_setNumPlayers, wonAt_inferWinType,
        wonAt_setTotalPot]
  · unfold finalizeHand
    rw [winnerSeat_setComplete, winnerSeat_setEndTime, (sameCore_pfStats p.pfActions _).winnerSeat,
        (sameCore_assignPositions _).winnerSeat, winnerSeat_setNumPlayers, winnerSeat_inferWinType,
        winnerSeat_setTotalPot]
  · unfold finalizeHand
    rw [totalPot_setComplete, totalPot_setEndTime, (sameCore_pfStats p.pfActions _).totalPot,
        (sameCore_assignPositions _).totalPot, totalPot_setNumPlayers, totalPot_inferWinType,
        totalPot_setTotalPot]

/-! ## Claim C8 — winner application on finalize -/

/-- C8: starting from a hand whose seats have no recorded winnings yet
(as every in-progress hand does), finalization marks every pending
winner's seat as `won`, accumulates each seat's pot exactly from its
pending amounts, makes the *last* pending winner the hand's winner
seat, and ends with `total_pot` equal to both the sum of all pending
amounts and the sum of `pot_won` over the recorded winner seats. -/
theorem C8_winner_application (p : Parser) (h : Hand)
    (hclean : ∀ s, potWonAt h s = 0) :
    (∀ w ∈ p.pendingWinners, wonAt (finalizeHand p h) (w.seatID : Int) = true) ∧
    (∀ s : Int, potWonAt (finalizeHand p h) s =
      ((p.pendingWinners.filter (fun w => s = (w.seatID : Int))).map pendingWin.amount).sum) ∧
    (∀ w, p.pendingWinners.getLast? = some w →
      (finalizeHand p h).winnerSeat = (w.seatID : Int)) ∧
    (finalizeHand p h).totalPot = (p.pendingWinners.map pendingWin.amount).sum ∧
    (finalizeHand p h).totalPot =
      ((p.pendingWinners.map (fun w => (w.seatID : Int))).dedup.map
        (fun s => potWonAt (finalizeHand p h) s)).sum := by
  obtain ⟨hPW, hWon, hWS, hTP⟩ := finalizeHand_obs p h
  have hclean1 : ∀ s, potWonAt (pendingAssign p h) s = 0 := fun s =>
    ((sameCore_pendingAssign p h).potWon s).trans (hclean s)
  have hfib : ∀ s : Int, potWonAt (finalizeHand p h) s =
      ((p.pendingWinners.filter (fun w => s = (w.seatID : Int))).map pendingWin.amount).sum := by
    intro s
    rw [hPW s, applyWinners_potWonAt, hclean1 s, Nat.zero_add]
  refine ⟨?_, hfib, ?_, hTP, ?_⟩
  · intro w hw
    rw [hWon]
    exact applyWinners_wonAt_mem p.pendingWinners (pendingAssign p h) w hw
  · intro w hw
    rw [hWS, applyWinners_winnerSeat, hw]
    rfl
  · rw [hTP]
    have hfun : (fun s => potWonAt (finalizeHand p h) s) =
        (fun s => ((p.pendingWinners.filter (fun w => s = (w.seatID : Int))).map
          pendingWin.amount).sum) := funext hfib
    rw [hfun]
    exact (sum_fiber_amounts p.pendingWinners
      ((p.pendingWinners.map (fun w => (w.seatID : Int))).dedup)
      (List.nodup_dedup _)
      (fun w hw => List.mem_dedup.mpr (List.mem_map_of_mem _ hw))).symm

/-- Parser state holding two pending winners for seat 7 and one for
seat 4, used by the C8 witness. -/
def c8Parser : Parser :=
  { NewParser with pendingWinners := [⟨7, 100⟩, ⟨4, 50⟩, ⟨7, 300⟩] }

/-- Witness for C8: seats 7 and 4 are marked won, seat 7 accumulates
400, the last pending winner (seat 7) wins the `winner_seat` write, and
the total pot is 450 = 400 + 50. -/
theorem C8_winner_application_witness :
    wonAt (finalizeHand c8Parser dummyHand) 7 = true ∧
    wonAt (finalizeHand c8Parser dummyHand) 4 = true ∧
    potWonAt (finalizeHand c8Parser dummyHand) 7 = 400 ∧
    (finalizeHand c8Parser dummyHand).winnerSeat = 7 ∧
    (finalizeHand c8Parser dummyHand).totalPot = 450 := by
  have hc := C8_winner_application c8Parser dummyHand (fun s => rfl)
  refine ⟨hc.1 ⟨7, 100⟩ (by decide), hc.1 ⟨4, 50⟩ (by decide),
          (hc.2.1 7).trans (by decide), hc.2.2.1 ⟨7, 300⟩ (by decide),
          hc.2.2.2.1.trans (by decide)⟩

/-! ## Parser invariant (claims C3 and C10) -/

/-- No recorded action of any seat of `h` is an all-in. -/
def actionsOK (h : Hand) : Prop :=
  ∀ s : Int, ∀ a ∈ actionsOf h s, a.action ≠ ActionType.allIn

/-- Amended C3 property of a finalized hand: a showdown hand either has
a recorded winner or at least three community cards. -/
def showdownOK (h : Hand) : Prop :=
  h.winType = "showdown" → h.winnerSeat ≠ -1 ∨ 3 ≤ h.communityCards.length

/-- Reachability invariant of the parser state. -/
structure ReachInv (p : Parser) : Prop where
  handsActions : ∀ h ∈ p.result.hands, actionsOK h
  handsShowdown : ∀ h ∈ p.result.hands, showdownOK h
  curActions : ∀ h, p.currentHand = some h → actionsOK h
  curWinType : ∀ h, p.currentHand = some h → h.winType = "showdown" → p.pendingWinners ≠ []

theorem actionsOK_of_acts_eq {X Y : Hand} (he : ∀ s, actionsOf Y s = actionsOf X s)
    (hX : actionsOK X) : actionsOK Y :=
  fun s b hb => hX s b ((he s) ▸ hb)

theorem actionsOf_append_ensure' (X : Hand) (seat : Int) (a : PlayerAction) (s : Int) :
    actionsOf (appendActionH (ensurePlayerH X seat) seat a) s =
      if s = seat then actionsOf X s ++ [a] else actionsOf X s := by
  by_cases hs : s = seat
  · subst hs
    rw [if_pos rfl]
    exact actionsOf_append_ensure X s a
  · rw [if_neg hs]
    unfold actionsOf playerAt appendActionH updatePlayer ensurePlayerH
    cases hps : X.players seat <;> simp [hs, hps]

theorem actionsOK_append (X : Hand) (seat : Int) (a : PlayerAction)
    (ha : a.action ≠ .allIn) (hX : actionsOK X) :
    actionsOK (appendActionH (ensurePlayerH X seat) seat a) := by
  intro s b hb
  rw [actionsOf_append_ensure'] at hb
  split at hb
  · rcases List.mem_append.mp hb with h1 | h2
    · exact hX s b h1
    · rw [List.mem_singleton.mp h2]
      exact ha
  · exact hX s b hb

theorem winType_ensure (X : Hand) (s : Int) : (ensurePlayerH X s).winType = X.winType := by
  unfold ensurePlayerH
  cases X.players s <;> rfl

theorem winType_appendEnsure (X : Hand) (seat : Int) (a : PlayerAction) :
    (appendActionH (ensurePlayerH X seat) seat a).winType = X.winType :=
  winType_ensure X seat

theorem classifyAction_ne_allIn (p : Parser) (seat : Int) (amount : Nat) :
    classifyAction p seat amount ≠ .allIn := by
  unfold classifyAction
  dsimp only
  repeat' split
  all_goals decide

theorem winType_setTotalPot (p : Parser) (h : Hand) : (setTotalPot p h).winType = h.winType := rfl
theorem winType_setNumPlayers (h : Hand) : (setNumPlayers h).winType = h.winType := rfl
theorem winType_setEndTime (p : Parser) (h : Hand) : (setEndTime p h).winType = h.winType := rfl
theorem winType_setComplete (p : Parser) (h : Hand) : (setComplete p h).winType = h.winType := rfl
theorem communityCards_setTotalPot (p : Parser) (h : Hand) :
    (setTotalPot p h).communityCards = h.communityCards := rfl
theorem communityCards_setNumPlayers (h : Hand) :
    (setNumPlayers h).communityCards = h.communityCards := rfl
theorem communityCards_setEndTime (p : Parser) (h : Hand) :
    (setEndTime p h).communityCards = h.communityCards := rfl
theorem communityCards_setComplete (p : Parser) (h : Hand) :
    (setComplete p h).communityCards = h.communityCards := rfl
theorem actionsOf_setTotalPot (p : Parser) (h : Hand) (s : Int) :
    actionsOf (setTotalPot p h) s = actionsOf h s := rfl
theorem actionsOf_setNumPlayers (h : Hand) (s : Int) :
    actionsOf (setNumPlayers h) s = actionsOf h s := rfl
theorem actionsOf_setEndTime (p : Parser) (h : Hand) (s : Int) :
    actionsOf (setEndTime p h) s = actionsOf h s := rfl
theorem actionsOf_setComplete (p : Parser) (h : Hand) (s : Int) :
    actionsOf (setComplete p h) s = actionsOf h s := rfl

/-- Finalization changes no action list. -/
theorem actionsOf_finalizeHand (p : Parser) (h : Hand) (s : Int) :
    actionsOf (finalizeHand p h) s = actionsOf h s := by
  unfold finalizeHand
  rw [actionsOf_setComplete, actionsOf_setEndTime, (sameCore_pfStats p.pfActions _).acts,
      (sameCore_assignPositions _).acts, actionsOf_setNumPlayers, actionsOf_inferWinType,
      actionsOf_setTotalPot, applyWinners_actionsOf, (sameCore_pendingAssign p h).acts]

/-- Finalization changes no community card. -/
theorem communityCards_finalizeHand (p : Parser) (h : Hand) :
    (finalizeHand p h).communityCards = h.communityCards := by
  unfold finalizeHand
  rw [communityCards_setComplete, communityCards_setEndTime,
      (sameCore_pfStats p.pfActions _).communityCards,
      (sameCore_assignPositions _).communityCards, communityCards_setNumPlayers,
      communityCards_inferWinType, communityCards_setTotalPot, applyWinners_communityCards,
      (sameCore_pendingAssign p h).communityCards]

/-- The finalized win type in terms of the in-progress hand. -/
theorem winType_finalizeHand (p : Parser) (h : Hand) :
    (finalizeHand p h).winType =
      if h.winType = "" then (if 3 ≤ h.communityCards.length then "showdown" else "fold")
      else h.winType := by
  unfold finalizeHand
  rw [winType_setComplete, winType_setEndTime, (sameCore_pfStats p.pfActions _).winType,
      (sameCore_assignPositions _).winType, winType_setNumPlayers, winType_inferWinType,
      winType_setTotalPot, applyWinners_winType, (sameCore_pendingAssign p h).winType,
      communityCards_setTotalPot, applyWinners_communityCards,
      (sameCore_pendingAssign p h).communityCards]

theorem finalizeHand_actionsOK (p : Parser) (h : Hand) (ha : actionsOK h) :
    actionsOK (finalizeHand p h) :=
  actionsOK_of_acts_eq (fun s => actionsOf_finalizeHand p h s) ha

theorem finalizeHand_showdownOK (p : Parser) (h : Hand)
    (hwt : h.winType = "showdown" → p.pendingWinners ≠ []) :
    showdownOK (finalizeHand p h) := by
  intro hfs
  rw [winType_finalizeHand] at hfs
  by_cases h0 : h.winType = ""
  · rw [if_pos h0] at hfs
    by_cases h3 : 3 ≤ h.communityCards.length
    · right
      rw [communityCards_finalizeHand]
      exact h3
    · rw [if_neg h3] at hfs
      exact absurd hfs (by decide)
  · rw [if_neg h0] at hfs
    have hne := hwt hfs
    left
    obtain ⟨w, hw⟩ := Option.isSome_iff_exists.mp (List.getLast?_isSome.mpr hne)
    rw [(finalizeHand_obs p h).2.2.1, applyWinners_winnerSeat, hw]
    simp only [Option.map_some', Option.getD_some]
    omega

/-- `finalizeCurrentHand` preserves the reachability invariant. -/
theorem reachInv_finalizeCurrentHand (p : Parser) (hInv : ReachInv p) :
    ReachInv (finalizeCurrentHand p) := by
  unfold finalizeCurrentHand
  cases hcur : p.currentHand with
  | none => exact hInv
  | some h0 =>
    dsimp only
    refine ⟨?_, ?_, ?_, ?_⟩
    · intro h hmem
      dsimp only at hmem
      split at hmem
      · split at hmem
        · rcases List.mem_append.mp hmem with h1 | h2
          · exact hInv.handsActions h h1
          · rw [List.mem_singleton.mp h2]
            exact finalizeHand_actionsOK p h0 (hInv.curActions h0 hcur)
        · exact hInv.handsActions h hmem
      · exact hInv.handsActions h hmem
    · intro h hmem
      dsimp only at hmem
      split at hmem
      · split at hmem
        · rcases List.mem_append.mp hmem with h1 | h2
          · exact hInv.handsShowdown h h1
          · rw [List.mem_singleton.mp h2]
            exact finalizeHand_showdownOK p h0 (hInv.curWinType h0 hcur)
        · exact hInv.handsShowdown h hmem
      · exact hInv.handsShowdown h hmem
    · intro h heq
      simp at heq
    · intro h heq
      simp at heq

/-- `startNewHand` preserves the reachability invariant. -/
theorem reachInv_startNewHand (p : Parser) (ts : Nat) (hInv : ReachInv p) :
    ReachInv (startNewHand p ts) := by
  refine ⟨hInv.handsActions, hInv.handsShowdown, ?_, ?_⟩
  · intro h heq
    unfold startNewHand at heq
    dsimp only at heq
    rw [Option.some_inj] at heq
    subst heq
    intro s a ha
    simp [actionsOf, playerAt] at ha
  · intro h heq hwt
    unfold startNewHand at heq
    dsimp only at heq
    rw [Option.some_inj] at heq
    subst heq
    have hwt' : ("" : String) = "showdown" := hwt
    exact absurd hwt' (by decide)


theorem acts_ensure (X : Hand) (s : Int) :
    ∀ s', actionsOf (ensurePlayerH X s) s' = actionsOf X s' :=
  (sameCore_ensure X s).acts

theorem acts_update_of (X : Hand) (s : Int) (f : PlayerHandInfo → PlayerHandInfo)
    (hf : ∀ pi, (f pi).actions = pi.actions) :
    ∀ s', actionsOf (updatePlayer X s f) s' = actionsOf X s' := by
  intro s'
  by_cases hs : s' = s
  · subst hs
    cases hps : X.players s' <;> simp [updatePlayer, actionsOf, playerAt, hps, hf]
  · simp [updatePlayer, actionsOf, playerAt, hs]

theorem reachInv_handleSBBet (p : Parser) (h : Hand) (ts seat amount : Nat)
    (hcur : p.currentHand = some h) (hInv : ReachInv p) :
    ReachInv (handleSBBet p h ts seat amount) := by
  refine ⟨hInv.handsActions, hInv.handsShowdown, ?_, ?_⟩
  · intro h' heq
    unfold handleSBBet at heq
    dsimp only at heq
    rw [Option.some_inj] at heq
    subst heq
    refine actionsOK_append _ _ _ ?_ (hInv.curActions h hcur)
    intro hh
    exact nomatch hh
  · intro h' heq hwt
    unfold handleSBBet at heq
    dsimp only at heq
    rw [Option.some_inj] at heq
    subst heq
    rw [winType_appendEnsure] at hwt
    exact hInv.curWinType h hcur hwt

theorem reachInv_handleBBBet (p : Parser) (h : Hand) (ts seat amount : Nat)
    (hcur : p.currentHand = some h) (hInv : ReachInv p) :
    ReachInv (handleBBBet p h ts seat amount) := by
  refine ⟨hInv.handsActions, hInv.handsShowdown, ?_, ?_⟩
  · intro h' heq
    unfold handleBBBet at heq
    dsimp only at heq
    rw [Option.some_inj] at heq
    subst heq
    refine actionsOK_append _ _ _ ?_ (hInv.curActions h hcur)
    intro hh
    exact nomatch hh
  · intro h' heq hwt
    unfold handleBBBet at heq
    dsimp only at heq
    rw [Option.some_inj] at heq
    subst heq
    rw [winType_appendEnsure] at hwt
    exact hInv.curWinType h hcur hwt

theorem reachInv_handleCommunity (p : Parser) (h : Hand) (card : String)
    (hcur : p.currentHand = some h) (hInv : ReachInv p) :
    ReachInv (handleCommunity p h card) := by
  unfold handleCommunity
  cases parseCard card with
  | error e => exact hInv
  | ok c =>
    dsimp only
    refine ⟨hInv.handsActions, hInv.handsShowdown, ?_, ?_⟩
    · intro h' heq
      dsimp only at heq
      rw [Option.some_inj] at heq
      subst heq
      exact hInv.curActions h hcur
    · intro h' heq hwt
      dsimp only at heq
      rw [Option.some_inj] at heq
      subst heq
      exact hInv.curWinType h hcur hwt

theorem reachInv_handleFolded (p : Parser) (h : Hand) (ts seat : Nat)
    (hcur : p.currentHand = some h) (hInv : ReachInv p) :
    ReachInv (handleFolded p h ts seat) := by
  unfold handleFolded
  dsimp only
  split
  · refine ⟨hInv.handsActions, hInv.handsShowdown, ?_, ?_⟩
    · intro h' heq
      dsimp only at heq
      rw [Option.some_inj] at heq
      subst heq
      refine actionsOK_of_acts_eq (acts_update_of _ _ _ ?_) ?_
      · intro pi
        rfl
      · refine actionsOK_append _ _ _ ?_ (hInv.curActions h hcur)
        intro hh
        exact nomatch hh
    · intro h' heq hwt
      dsimp only at heq
      rw [Option.some_inj] at heq
      subst heq
      have hwt' : (ensurePlayerH h (seat : Int)).winType = "showdown" := hwt
      rw [winType_ensure] at hwt'
      exact hInv.curWinType h hcur hwt'
  · refine ⟨hInv.handsActions, hInv.handsShowdown, ?_, ?_⟩
    · intro h' heq
      dsimp only at heq
      rw [Option.some_inj] at heq
      subst heq
      refine actionsOK_append _ _ _ ?_ (hInv.curActions h hcur)
      intro hh
      exact nomatch hh
    · intro h' heq hwt
      dsimp only at heq
      rw [Option.some_inj] at heq
      subst heq
      rw [winType_appendEnsure] at hwt
      exact hInv.curWinType h hcur hwt

theorem reachInv_handleEndTurn (p : Parser) (h : Hand) (ts seat amount : Nat)
    (hcur : p.currentHand = some h) (hInv : ReachInv p) :
    ReachInv (handleEndTurn p h ts seat amount) := by
  unfold handleEndTurn
  split
  · exact hInv
  · dsimp only
    split
    · refine ⟨hInv.handsActions, hInv.handsShowdown, ?_, ?_⟩
      · intro h' heq
        dsimp only at heq
        rw [Option.some_inj] at heq
        subst heq
        exact actionsOK_append _ _ _ (classifyAction_ne_allIn p (seat : Int) amount)
          (hInv.curActions h hcur)
      · intro h' heq hwt
        dsimp only at heq
        rw [Option.some_inj] at heq
        subst heq
        rw [winType_appendEnsure] at hwt
        exact hInv.curWinType h hcur hwt
    · refine ⟨hInv.handsActions, hInv.handsShowdown, ?_, ?_⟩
      · intro h' heq
        dsimp only at heq
        rw [Option.some_inj] at heq
        subst heq
        exact actionsOK_append _ _ _ (classifyAction_ne_allIn p (seat : Int) amount)
          (hInv.curActions h hcur)
      · intro h' heq hwt
        dsimp only at heq
        rw [Option.some_inj] at heq
        subst heq
        rw [winType_appendEnsure] at hwt
        exact hInv.curWinType h hcur hwt

theorem reachInv_assignLocalCards (p : Parser) (seat : Int) (cards : List Card)
    (hInv : ReachInv p) : ReachInv (assignLocalCards p seat cards) := by
  unfold assignLocalCards
  cases hcur : p.currentHand with
  | none => exact hInv
  | some h =>
    dsimp only
    refine ⟨hInv.handsActions, hInv.handsShowdown, ?_, ?_⟩
    · intro h' heq
      dsimp only at heq
      rw [Option.some_inj] at heq
      subst heq
      refine actionsOK_of_acts_eq (acts_update_of _ _ _ ?_) ?_
      · intro pi
        rfl
      · exact actionsOK_of_acts_eq (acts_ensure h seat) (hInv.curActions h hcur)
    · intro h' heq hwt
      dsimp only at heq
      rw [Option.some_inj] at heq
      subst heq
      have hwt' : (ensurePlayerH h seat).winType = "showdown" := hwt
      rw [winType_ensure] at hwt'
      exact hInv.curWinType h hcur hwt'

theorem reachInv_handleDrawLocal (p : Parser) (cards : String) (hInv : ReachInv p) :
    ReachInv (handleDrawLocal p cards) := by
  unfold handleDrawLocal
  cases parseCards cards with
  | error e => exact hInv
  | ok cs =>
    dsimp only
    have hInv' : ReachInv { p with pendingLocalCards := some cs } :=
      ⟨hInv.handsActions, hInv.handsShowdown, hInv.curActions, hInv.curWinType⟩
    split
    · exact reachInv_assignLocalCards _ _ _ hInv'
    · split
      · exact reachInv_assignLocalCards _ _ _ hInv'
      · exact hInv'

theorem reachInv_handleShowHole (p : Parser) (h : Hand) (seat : Nat) (cards : String)
    (hcur : p.currentHand = some h) (hInv : ReachInv p) :
    ReachInv (handleShowHole p h seat cards) := by
  unfold handleShowHole
  cases parseCards cards with
  | error e => exact hInv
  | ok cs =>
    dsimp only
    have hone : ∀ h', h' = updatePlayer (ensurePlayerH h (seat : Int)) (seat : Int)
        (fun pi => { pi with showedDown := true }) → actionsOK h' := by
      intro h' heq
      subst heq
      refine actionsOK_of_acts_eq (acts_update_of _ _ _ ?_) ?_
      · intro pi
        rfl
      · exact actionsOK_of_acts_eq (acts_ensure h (seat : Int)) (hInv.curActions h hcur)
    have htwo : ∀ h', h' = updatePlayer (updatePlayer (ensurePlayerH h (seat : Int)) (seat : Int)
        (fun pi => { pi with showedDown := true })) (seat : Int)
        (fun pi => if pi.holeCards.isEmpty then { pi with holeCards := cs } else pi) →
        actionsOK h' := by
      intro h' heq
      subst heq
      refine actionsOK_of_acts_eq (acts_update_of _ _ _ ?_) ?_
      · intro pi
        split <;> rfl
      · exact hone _ rfl
    have hwtr : (updatePlayer (ensurePlayerH h (seat : Int)) (seat : Int)
        (fun pi => { pi with showedDown := true })).winType = "showdown" →
        h.winType = "showdown" := by
      intro hwt
      have hwt' : (ensurePlayerH h (seat : Int)).winType = "showdown" := hwt
      rw [winType_ensure] at hwt'
      exact hwt'
    cases hplc : p.pendingLocalCards with
    | some pending =>
      dsimp only
      split
      · have hmid : ∀ q : Parser,
            q.result.hands = p.result.hands →
            q.pendingWinners = p.pendingWinners →
            (q.currentHand = some (updatePlayer (ensurePlayerH h (seat : Int)) (seat : Int)
              (fun pi => { pi with showedDown := true }))) →
            ReachInv q := by
          intro q hh hw hc
          refine ⟨hh ▸ hInv.handsActions, hh ▸ hInv.handsShowdown, ?_, ?_⟩
          · intro h' heq
            rw [hc, Option.some_inj] at heq
            exact hone h' heq.symm
          · intro h' heq hwt
            rw [hc, Option.some_inj] at heq
            subst heq
            rw [hw]
            exact hInv.curWinType h hcur (hwtr hwt)
        split
        · exact reachInv_assignLocalCards _ _ _ (hmid _ rfl rfl rfl)
        · exact reachInv_assignLocalCards _ _ _ (hmid _ rfl rfl rfl)
      · refine ⟨hInv.handsActions, hInv.handsShowdown, ?_, ?_⟩
        · intro h' heq
          dsimp only at heq
          rw [Option.some_inj] at heq
          exact htwo h' heq.symm
        · intro h' heq hwt
          dsimp only at heq
          rw [Option.some_inj] at heq
          subst heq
          have hwt2 : (updatePlayer (ensurePlayerH h (seat : Int)) (seat : Int)
              (fun pi => { pi with showedDown := true })).winType = "showdown" := hwt
          exact hInv.curWinType h hcur (hwtr hwt2)
    | none =>
      dsimp only
      refine ⟨hInv.handsActions, hInv.handsShowdown, ?_, ?_⟩
      · intro h' heq
        dsimp only at heq
        rw [Option.some_inj] at heq
        exact htwo h' heq.symm
      · intro h' heq hwt
        dsimp only at heq
        rw [Option.some_inj] at heq
        subst heq
        have hwt2 : (updatePlayer (ensurePlayerH h (seat : Int)) (seat : Int)
            (fun pi => { pi with showedDown := true })).winType = "showdown" := hwt
        exact hInv.curWinType h hcur (hwtr hwt2)

theorem reachInv_processPokerEvent (p : Parser) (ts : Nat) (e : LogEvent) (hInv : ReachInv p) :
    ReachInv (processPokerEvent p ts e) := by
  unfold processPokerEvent
  cases e with
  | newGame => exact reachInv_startNewHand _ _ (reachInv_finalizeCurrentHand p hInv)
  | worldJoin b =>
    cases hcur : p.currentHand with
    | none => exact hInv
    | some h => exact hInv
  | worldLeave =>
    cases hcur : p.currentHand with
    | none => exact hInv
    | some h => exact hInv
  | drawLocalHole cards =>
    cases hcur : p.currentHand with
    | none => exact hInv
    | some h => exact reachInv_handleDrawLocal _ _ hInv
  | sbBet seat amount =>
    cases hcur : p.currentHand with
    | none => exact hInv
    | some h => exact reachInv_handleSBBet p h ts seat amount hcur hInv
  | bbBet seat amount =>
    cases hcur : p.currentHand with
    | none => exact hInv
    | some h => exact reachInv_handleBBBet p h ts seat amount hcur hInv
  | community card =>
    cases hcur : p.currentHand with
    | none => exact hInv
    | some h => exact reachInv_handleCommunity p h card hcur hInv
  | streetBoundary =>
    cases hcur : p.currentHand with
    | none => exact hInv
    | some h =>
      refine ⟨hInv.handsActions, hInv.handsShowdown, ?_, ?_⟩
      · intro h' heq
        dsimp only at heq
        rw [Option.some_inj] at heq
        subst heq
        exact hInv.curActions h hcur
      · intro h' heq hwt
        dsimp only at heq
        rw [Option.some_inj] at heq
        subst heq
        exact hInv.curWinType h hcur hwt
  | folded seat =>
    cases hcur : p.currentHand with
    | none => exact hInv
    | some h => exact reachInv_handleFolded p h ts seat hcur hInv
  | endTurn seat amount =>
    cases hcur : p.currentHand with
    | none => exact hInv
    | some h => exact reachInv_handleEndTurn p h ts seat amount hcur hInv
  | showHole seat cards =>
    cases hcur : p.currentHand with
    | none => exact hInv
    | some h => exact reachInv_handleShowHole p h seat cards hcur hInv
  | foldToOne =>
    cases hcur : p.currentHand with
    | none => exact hInv
    | some h =>
      refine ⟨hInv.handsActions, hInv.handsShowdown, ?_, ?_⟩
      · intro h' heq
        dsimp only at heq
        rw [Option.some_inj] at heq
        subst heq
        exact hInv.curActions h hcur
      · intro h' heq hwt
        dsimp only at heq
        rw [Option.some_inj] at heq
        subst heq
        exact hInv.curWinType h hcur hwt
  | potWinner seat amount =>
    cases hcur : p.currentHand with
    | none => exact hInv
    | some h =>
      refine ⟨hInv.handsActions, hInv.handsShowdown, ?_, ?_⟩
      · intro h' heq
        dsimp only at heq
        rw [Option.some_inj] at heq
        subst heq
        split
        · exact hInv.curActions h hcur
        · exact hInv.curActions h hcur
      · intro h' heq hwt
        simp
  | potManager seat amount =>
    cases hcur : p.currentHand with
    | none => exact hInv
    | some h =>
      refine ⟨hInv.handsActions, hInv.handsShowdown, ?_, ?_⟩
      · intro h' heq
        dsimp only at heq
        rw [Option.some_inj] at heq
        subst heq
        exact hInv.curActions h hcur
      · intro h' heq hwt
        simp

theorem reachInv_ParseLine (p : Parser) (tev : TimedEvent) (hInv : ReachInv p) :
    ReachInv (ParseLine p tev) := by
  have hts : ReachInv { p with lastTimestamp := tev.ts } :=
    ⟨hInv.handsActions, hInv.handsShowdown, hInv.curActions, hInv.curWinType⟩
  unfold ParseLine
  dsimp only
  cases tev.ev with
  | worldJoin b =>
    exact ⟨hts.handsActions, hts.handsShowdown, hts.curActions, hts.curWinType⟩
  | worldLeave =>
    have h1 : ReachInv (if ({ p with lastTimestamp := tev.ts } : Parser).inPokerWorld then
        finalizeCurrentHand { p with lastTimestamp := tev.ts }
        else { p with lastTimestamp := tev.ts }) := by
      split
      · exact reachInv_finalizeCurrentHand _ hts
      · exact hts
    exact ⟨h1.handsActions, h1.handsShowdown, h1.curActions, h1.curWinType⟩
  | newGame => exact reachInv_processPokerEvent _ _ _ hts
  | drawLocalHole cards => exact reachInv_processPokerEvent _ _ _ hts
  | sbBet seat amount => exact reachInv_processPokerEvent _ _ _ hts
  | bbBet seat amount => exact reachInv_processPokerEvent _ _ _ hts
  | community card => exact reachInv_processPokerEvent _ _ _ hts
  | streetBoundary => exact reachInv_processPokerEvent _ _ _ hts
  | folded seat => exact reachInv_processPokerEvent _ _ _ hts
  | endTurn seat amount => exact reachInv_processPokerEvent _ _ _ hts
  | showHole seat cards => exact reachInv_processPokerEvent _ _ _ hts
  | foldToOne => exact reachInv_processPokerEvent _ _ _ hts
  | potWinner seat amount => exact reachInv_processPokerEvent _ _ _ hts
  | potManager seat amount => exact reachInv_processPokerEvent _ _ _ hts

theorem reachInv_NewParser : ReachInv NewParser := by
  refine ⟨?_, ?_, ?_, ?_⟩
  · intro h hm
    exact absurd hm (List.not_mem_nil _)
  · intro h hm
    exact absurd hm (List.not_mem_nil _)
  · intro h heq
    exact Option.noConfusion heq
  · intro h heq
    exact Option.noConfusion heq

theorem reachInv_foldl :
    ∀ (lines : List TimedEvent) (p : Parser), ReachInv p → ReachInv (lines.foldl ParseLine p)
  | [], _, hp => hp
  | l :: ls, p, hp => reachInv_foldl ls _ (reachInv_ParseLine p l hp)

/-! ## Claim C10 — no all-in action is ever recorded -/

/-- C10: over any tokenized line stream, no action recorded in any
finalized hand has kind all-in, so the analyzer's all-in test
`isAggressivePreflop` only ever fires on bet or raise over
parser-produced hands. -/
theorem C10_no_all_in (lines : List TimedEvent) :
    ∀ h ∈ (ParseReader lines).hands, ∀ s : Int, ∀ a ∈ actionsOf h s,
      a.action ≠ ActionType.allIn ∧
      (isAggressivePreflop a.action = true ↔ (a.action = .bet ∨ a.action = .raise)) := by
  intro h hm s a ha
  have hInv := reachInv_finalizeCurrentHand _
    (reachInv_foldl lines NewParser reachInv_NewParser)
  have hne := hInv.handsActions h hm s a ha
  refine ⟨hne, ?_⟩
  cases hact : a.action <;> first | exact absurd hact hne | decide

/-- Events used by the C10 witness: a kept hand whose seat 1 posted a
blind. -/
def c10Events : List TimedEvent :=
  [⟨1, .newGame⟩, ⟨2, .sbBet 1 10⟩, ⟨3, .drawLocalHole "Ah, Kd"⟩]

/-- Witness for C10 on a concrete stream. -/
theorem C10_no_all_in_witness :
    handAt (ParseReader c10Events) 0 ∈ (ParseReader c10Events).hands ∧
    ∀ a ∈ actionsOf (handAt (ParseReader c10Events) 0) 1, a.action ≠ ActionType.allIn := by
  have hl : (ParseReader c10Events).hands = [handAt (ParseReader c10Events) 0] := rfl
  have hmem : handAt (ParseReader c10Events) 0 ∈ (ParseReader c10Events).hands := by
    rw [hl]
    exact List.mem_singleton.mpr rfl
  exact ⟨hmem, fun a ha =>
    (C10_no_all_in c10Events (handAt (ParseReader c10Events) 0) hmem 1 a ha).1⟩

/-! ## Claim C3 — showdown hands and community cards -/

/-- Stream producing a kept hand with `win_type = showdown` and zero
community cards (a `Pot Winner` line with no community card dealt). -/
def c3aEvents : List TimedEvent :=
  [⟨1, .newGame⟩, ⟨2, .drawLocalHole "7d, 9c"⟩, ⟨3, .showHole 8 "7d, 9c"⟩, ⟨4, .potWinner 8 400⟩]

/-- Stream producing a kept hand with `win_type = showdown` and six
community cards (the parser appends community cards without bound and
infers showdown from three or more at finalize). -/
def c3bEvents : List TimedEvent :=
  [⟨1, .newGame⟩, ⟨2, .drawLocalHole "7d, 9c"⟩, ⟨3, .showHole 8 "7d, 9c"⟩,
   ⟨4, .community "2h"⟩, ⟨5, .community "3h"⟩, ⟨6, .community "4h"⟩,
   ⟨7, .community "5h"⟩, ⟨8, .community "6h"⟩, ⟨9, .community "7h"⟩]

/-- C3 counterexample: finalized hands with `win_type = showdown` and 0
community cards, and with 6 community cards, are both reachable, so
`|community_cards| ∈ {3,4,5}` fails in both directions. -/
theorem C3_showdown_community_counterexample :
    (ParseReader c3aEvents).hands.length = 1 ∧
    (handAt (ParseReader c3aEvents) 0).winType = "showdown" ∧
    (handAt (ParseReader c3aEvents) 0).communityCards.length = 0 ∧
    (ParseReader c3bEvents).hands.length = 1 ∧
    (handAt (ParseReader c3bEvents) 0).winType = "showdown" ∧
    (handAt (ParseReader c3bEvents) 0).communityCards.length = 6 ∧
    (handAt (ParseReader c3bEvents) 0).winnerSeat = -1 := by
  refine ⟨by decide, by decide, by decide, by decide, by decide, by decide, by decide⟩

/-- C3 (amended): over any tokenized line stream, every finalized hand
with `win_type = showdown` either recorded a winner event (its
`winner_seat` is set, i.e. ≠ −1) or has at least 3 community cards. -/
theorem C3_showdown_winner_or_board (lines : List TimedEvent) :
    ∀ h ∈ (ParseReader lines).hands, h.winType = "showdown" →
      h.winnerSeat ≠ -1 ∨ 3 ≤ h.communityCards.length := by
  intro h hm
  exact (reachInv_finalizeCurrentHand _
    (reachInv_foldl lines NewParser reachInv_NewParser)).handsShowdown h hm

/-- Witness for the amended C3 on the zero-card showdown stream: the
winner seat is set. -/
theorem C3_showdown_winner_or_board_witness :
    handAt (ParseReader c3aEvents) 0 ∈ (ParseReader c3aEvents).hands ∧
    (handAt (ParseReader c3aEvents) 0).winType = "showdown" ∧
    ((handAt (ParseReader c3aEvents) 0).winnerSeat ≠ -1 ∨
      3 ≤ (handAt (ParseReader c3aEvents) 0).communityCards.length) := by
  have hl : (ParseReader c3aEvents).hands = [handAt (ParseReader c3aEvents) 0] := rfl
  have hmem : handAt (ParseReader c3aEvents) 0 ∈ (ParseReader c3aEvents).hands := by
    rw [hl]
    exact List.mem_singleton.mpr rfl
  exact ⟨hmem, by decide,
    C3_showdown_winner_or_board c3aEvents (handAt (ParseReader c3aEvents) 0) hmem (by decide)⟩
